import Mathlib

/-!
# Application Gateway ingress controller: pruning pipeline and Istio resolution

A shallow embedding of `pkg/appgw/istio_config.go` and `pkg/controller/prune.go`.

Conventions of the embedding:

* Go `string` is `String`; `int32` / `uint32` values are carried as `Int` / `Nat` (the code
  performs no arithmetic on them, it only compares and stores them).
* A Go `error` value is an `error` record; the `(value, error)` result pair of a Go call is a
  Lean pair whose second component is `Option error` (`none` is the `nil` error).
* A `map[int32]interface{}` in which every stored value is `nil` is determined by its key set and
  is modelled by `Finset Int`: `make` is `∅` and `m[k] = nil` is `insert k m`.
* A nil pointer dereference (a Go panic) is the result `none` of an `Option`-valued function.
* `glog` verbose (`V(5)`) tracing is not modelled; `glog.Error*` lines of `prune.go` are kept in
  an explicit diagnostic log.
-/

namespace AGIC

/-! ## Definitions: endpoints and Istio identifiers -/

/-- Go error values, identified by their message. -/
structure error where
  msg : String
deriving DecidableEq, Repr

/-- Port entry of an endpoint subset, `v1.EndpointPort` (fields read by the code). -/
structure EndpointPort where
  Name : String
  Port : Int
deriving DecidableEq, Repr

/-- Group of addresses sharing a port list, `v1.EndpointSubset`. -/
structure EndpointSubset where
  Addresses : List String
  Ports : List EndpointPort
deriving DecidableEq, Repr

/-- Endpoints object of a service, `v1.Endpoints`. -/
structure Endpoints where
  Subsets : List EndpointSubset
deriving DecidableEq, Repr

/-- Identity of a backing service. -/
structure serviceIdentifier where
  Namespace : String
  Name : String
deriving DecidableEq, Repr

/-- Identity of a VirtualService. -/
structure istioVirtualServiceIdentifier where
  Namespace : String
  Name : String
deriving DecidableEq, Repr

/-- Composite key of a traffic-split destination; the two identifier structs are embedded. -/
structure istioDestinationIdentifier where
  serviceIdentifier : serviceIdentifier
  istioVirtualServiceIdentifier : istioVirtualServiceIdentifier
  DestinationHost : String
  DestinationSubset : String
  DestinationPort : Nat
deriving DecidableEq, Repr

/-- Cache accessor used by the config builder: `GetEndpointsByService(serviceKey)` returns an
endpoints pointer (possibly nil) and an error (possibly nil). -/
structure Context where
  GetEndpointsByService : String → Option Endpoints × Option error

/-- Receiver of `resolveIstioPortName`. -/
structure appGwConfigBuilder where
  k8sContext : Context

/-- Inner loop of `resolveIstioPortName`: `for _, epPort := range subset.Ports`. -/
def resolveSubsetPorts (portName : String) (ports : List EndpointPort)
    (resolvedPorts : Finset Int) : Finset Int :=
  ports.foldl
    (fun acc epPort => if epPort.Name = portName then insert epPort.Port acc else acc)
    resolvedPorts

/-- Outer loop of `resolveIstioPortName`: `for _, subset := range endpoints.Subsets`. -/
def resolveSubsets (portName : String) (subsets : List EndpointSubset)
    (resolvedPorts : Finset Int) : Finset Int :=
  subsets.foldl (fun acc subset => resolveSubsetPorts portName subset.Ports acc) resolvedPorts

/-- Embedding of `resolveIstioPortName`. The method `serviceKey` of the embedded
`serviceIdentifier` is declared outside the embedded sources and is taken as a parameter.
`destinationID` is a pointer: `none` is nil, and dereferencing it panics (result `none`).
The `glog.Error` line of the error branch only writes a diagnostic. -/
def resolveIstioPortName (serviceKey : serviceIdentifier → String) (c : appGwConfigBuilder)
    (portName : String) (destinationID : Option istioDestinationIdentifier) :
    Option (Finset Int) :=
  match destinationID with
  | none => none
  | some d =>
    let resolvedPorts : Finset Int := ∅
    match c.k8sContext.GetEndpointsByService (serviceKey d.serviceIdentifier) with
    | (_, some _) => some resolvedPorts
    | (none, none) => some resolvedPorts
    | (some endpoints, none) => some (resolveSubsets portName endpoints.Subsets resolvedPorts)

/-- A cache accessor that answers every lookup with the given result (test fixture). -/
def cacheReturning (r : Option Endpoints × Option error) : appGwConfigBuilder :=
  ⟨⟨fun _ => r⟩⟩

/-- Service key rendering `namespace/name`, used for concrete evaluations. -/
def sampleServiceKey (s : serviceIdentifier) : String :=
  s.Namespace ++ "/" ++ s.Name

/-- A destination identifier used for concrete evaluations. -/
def sampleDestination : istioDestinationIdentifier :=
  ⟨⟨"ns1", "svcA"⟩, ⟨"ns1", "vs1"⟩, "svcA", "v1", 80⟩

/-! ## Definitions: Istio routing objects and the identity generator -/

/-- Port selector of a destination (`v1alpha3.PortSelector`). -/
structure PortSelector where
  Number : Nat
  Name : String
deriving DecidableEq, Repr

/-- Traffic-split destination (`v1alpha3.Destination`). -/
structure Destination where
  Host : String
  Subset : String
  Port : PortSelector
deriving DecidableEq, Repr

/-- Match clause of an HTTP route (`v1alpha3.HTTPMatchRequest`): the gateway binding list read
by the code, and two of the matching conditions it carries along. -/
structure HTTPMatchRequest where
  Uri : String
  Method : String
  Gateways : List String
deriving DecidableEq, Repr

/-- Weighted destination of an HTTP route (`v1alpha3.DestinationWeight`). -/
structure DestinationWeight where
  Destination : Destination
  Weight : Int
deriving DecidableEq, Repr

/-- Routing rule of a VirtualService (`v1alpha3.HTTPRoute`). -/
structure HTTPRoute where
  Match : List HTTPMatchRequest
  Route : List DestinationWeight
deriving DecidableEq, Repr

/-- Spec part of a VirtualService (`v1alpha3.VirtualServiceSpec`). -/
structure VirtualServiceSpec where
  Hosts : List String
  Gateways : List String
  HTTP : List HTTPRoute
deriving DecidableEq, Repr

/-- VirtualService object (`v1alpha3.VirtualService`); namespace and name come from its
embedded object metadata. -/
structure VirtualService where
  Namespace : String
  Name : String
  Spec : VirtualServiceSpec
deriving DecidableEq, Repr

/-- Modelled from the spec: the composite key of one HTTP match clause, whose declaration is
outside the embedded sources; the spec gives its fields as namespace, virtualService, rule,
match, destinations and gateways. The fields holding Go pointers hold the referenced object, or
`none` for nil; the objects are never written by this code, so two references are equal when
they are both nil or refer to equal content. -/
structure istioMatchIdentifier where
  Namespace : String
  VirtualService : Option VirtualService
  Rule : Option HTTPRoute
  Match : Option HTTPMatchRequest
  Destinations : List (Option Destination)
  Gateways : List String
deriving DecidableEq, Repr

/-- Embedding of `generateIstioMatchID`. The pointers `virtualService` and `match` are
dereferenced, so a nil one makes the call panic (result `none`); `rule` and the entries of
`destinations` are stored as they are. -/
def generateIstioMatchID (virtualService : Option VirtualService) (rule : Option HTTPRoute)
    («match» : Option HTTPMatchRequest) (destinations : List (Option Destination)) :
    Option istioMatchIdentifier :=
  match virtualService, «match» with
  | some vs, some m =>
    some
      { Namespace := vs.Namespace
        VirtualService := virtualService
        Rule := rule
        Match := «match»
        Destinations := destinations
        Gateways := m.Gateways }
  | _, _ => none

/-- Embedding of `generateIstioDestinationID`. Both pointers are dereferenced, so a nil one
makes the call panic (result `none`). -/
def generateIstioDestinationID (virtualService : Option VirtualService)
    (destination : Option Destination) : Option istioDestinationIdentifier :=
  match virtualService, destination with
  | some vs, some d =>
    some
      { serviceIdentifier := { Namespace := vs.Namespace, Name := d.Host }
        istioVirtualServiceIdentifier := { Namespace := vs.Namespace, Name := vs.Name }
        DestinationHost := d.Host
        DestinationSubset := d.Subset
        DestinationPort := d.Port.Number }
  | _, _ => none

/-- A VirtualService used for concrete evaluations. -/
def sampleVirtualService : VirtualService :=
  ⟨"ns1", "vs1", ⟨["a.example.com"], ["gw1"],
    [⟨[⟨"/", "GET", ["gw1"]⟩], [⟨⟨"svcA", "v1", ⟨80, "http"⟩⟩, 100⟩]⟩]⟩⟩

/-- The sample VirtualService as fetched again after a change of its spec only. -/
def sampleVirtualServiceRefetched : VirtualService :=
  ⟨"ns1", "vs1", ⟨["a.example.com", "b.example.com"], ["gw1", "gw2"], []⟩⟩

/-- A match clause used for concrete evaluations. -/
def sampleMatch : HTTPMatchRequest := ⟨"/", "GET", ["gw1"]⟩

/-- A destination used for concrete evaluations. -/
def sampleIstioDestination : Destination := ⟨"svcA", "v1", ⟨80, "http"⟩⟩

/-! ## Definitions: ingress objects, gateway snapshot, build context -/

/-- Backend path of an ingress rule (`v1beta1.HTTPIngressPath`, flattened). -/
structure HTTPIngressPath where
  Path : String
  ServiceName : String
  ServicePort : Int
deriving DecidableEq, Repr

/-- Rule fragment of an ingress (`v1beta1.IngressRule`). -/
structure IngressRule where
  Host : String
  Paths : List HTTPIngressPath
deriving DecidableEq, Repr

/-- Spec part of an ingress (`v1beta1.IngressSpec`), the field the pruning code writes. -/
structure IngressSpec where
  Rules : List IngressRule
deriving DecidableEq, Repr

/-- Ingress object (`v1beta1.Ingress`): the fields the pruning code reads or writes. -/
structure Ingress where
  Namespace : String
  Name : String
  Annotations : List (String × String)
  Spec : IngressSpec
deriving DecidableEq, Repr

/-- Address of an ingress object: the code handles `*v1beta1.Ingress` values. Pointers in an
ingress list are taken to be non-nil and to address live objects of the heap. -/
abbrev Ptr := Nat

/-- Modelled from the spec: the prohibited-target record, whose declaration is outside the
embedded sources; the spec gives it as namespace, service or host pattern, and ports. -/
structure ProhibitedTarget where
  Namespace : String
  Target : String
  Ports : List Int
deriving DecidableEq, Repr

/-- Modelled from the spec: a frontend IP configuration of the gateway snapshot, whose
declaration is outside the embedded sources; the spec gives each one as tagged public or
private. -/
structure FrontendIPConfiguration where
  Name : String
  IsPrivate : Bool
deriving DecidableEq, Repr

/-- Gateway snapshot (`n.ApplicationGateway`): the field the pruning code reads. -/
structure ApplicationGateway where
  FrontendIPConfigurations : List FrontendIPConfiguration
deriving DecidableEq, Repr

/-- Modelled from the spec: `appgw.LookupIPConfigurationByType`, declared outside the embedded
sources; the spec describes it as the lookup of frontend IP configurations by type
(public/private). It returns the first configuration of the requested type, or nil. -/
def LookupIPConfigurationByType (frontendIPConfigurations : List FrontendIPConfiguration)
    (privateIP : Bool) : Option FrontendIPConfiguration :=
  frontendIPConfigurations.find? (fun ip => ip.IsPrivate == privateIP)

/-- Process-wide feature flags, carried as strings. -/
structure EnvVariables where
  EnableBrownfieldDeployment : String
  UsePrivateIP : String
deriving DecidableEq, Repr

/-- Build context of one reconciliation cycle (`appgw.ConfigBuilderContext`). -/
structure ConfigBuilderContext where
  IngressList : List Ptr
  EnvVariables : EnvVariables
  ProhibitedTargets : List ProhibitedTarget
deriving DecidableEq, Repr

/-- Identity of the managed gateway. -/
structure Identifier where
  AppGwName : String
deriving DecidableEq, Repr

/-- Controller receiver: the field read by the pruning code. Its event recorder is the
`events` log of `World`. -/
structure AppGwIngressController where
  appGwIdentifier : Identifier
deriving DecidableEq, Repr

/-- One call `recorder.Event(object, eventtype, reason, message)`. -/
structure Event where
  object : Ptr
  eventtype : String
  reason : String
  message : String
deriving DecidableEq, Repr

/-- Mutable surroundings of the pruning stages: the objects the ingress pointers address, the
event recorder's log and the `glog` error log. -/
structure World where
  heap : Ptr → Ingress
  events : List Event
  glog : List String

/-- Functions and constants of other packages used by `prune.go` and declared outside the
embedded sources: the annotation reader with its key, the error classifier, the brownfield
rule pruner and the event reason code. -/
structure Deps where
  UsePrivateIP : Ingress → Bool × Option error
  UsePrivateIPKey : String
  IsInvalidContent : error → Bool
  PruneIngressRules : Ingress → List ProhibitedTarget → List IngressRule
  ReasonNoPrivateIPError : String

/-- Constant `v1.EventTypeWarning` of the Kubernetes API. -/
def EventTypeWarning : String := "Warning"

/-! ## Definitions: pruning stages -/

/-- Type of a pruning stage:
`func(c, appGw, cbCtx, ingressList) []*v1beta1.Ingress`, with the surroundings threaded. -/
abbrev pruneFunc :=
  AppGwIngressController → ApplicationGateway → ConfigBuilderContext → List Ptr → World →
    List Ptr × World

/-- Local variable `ings` of `pruneKubeSystemIngress` after its loop. -/
def pruneKubeSystemIngress_ings (ingressList : List Ptr) (w : World) : List Ptr :=
  ingressList.foldl
    (fun ings ingress =>
      if (w.heap ingress).Namespace = "kube-system" then ings else ings ++ [ingress])
    []

/-- Embedding of `pruneKubeSystemIngress`: the loop fills `ings`, the function returns
`ingressList`. -/
def pruneKubeSystemIngress : pruneFunc := fun _c _appGw _cbCtx ingressList w =>
  let _ings := pruneKubeSystemIngress_ings ingressList w
  (ingressList, w)

/-- Loop body of `pruneProhibitedIngress`:
`ingressList[idx].Spec.Rules = brownfield.PruneIngressRules(ingress, cbCtx.ProhibitedTargets)`,
a write through the pointer. -/
def pruneProhibitedIngress_body (x : Deps) (cbCtx : ConfigBuilderContext) (w : World)
    (ingress : Ptr) : World :=
  let obj := w.heap ingress
  { w with
    heap := Function.update w.heap ingress
      { obj with Spec := { obj.Spec with
          Rules := x.PruneIngressRules obj cbCtx.ProhibitedTargets } } }

/-- Embedding of `pruneProhibitedIngress`. -/
def pruneProhibitedIngress (x : Deps) : pruneFunc := fun _c _appGw cbCtx ingressList w =>
  (ingressList, ingressList.foldl (pruneProhibitedIngress_body x cbCtx) w)

/-- The `errorLine` of `pruneNoPrivateIP`. -/
def noPrivateIPErrorLine (c : AppGwIngressController) (obj : Ingress) : String :=
  "Ingress " ++ obj.Namespace ++ "/" ++ obj.Name ++ " requires Application Gateway " ++
    c.appGwIdentifier.AppGwName ++ " has a private IP adress"

/-- The statement `if err != nil && errors.IsInvalidContent(err) { glog.Errorf(...) }` of
`pruneNoPrivateIP`: it writes a diagnostic and changes nothing else. -/
def pruneNoPrivateIP_logInvalid (x : Deps) (w : World) (obj : Ingress)
    (err : Option error) : World :=
  match err with
  | some e =>
    if x.IsInvalidContent e then
      { w with glog := w.glog ++ ["Ingress " ++ obj.Namespace ++ "/" ++ obj.Name ++
          " has invalid value for annotation " ++ x.UsePrivateIPKey] }
    else w
  | none => w

/-- Loop body of `pruneNoPrivateIP`; the state is `prunedIngresses` and the surroundings. -/
def pruneNoPrivateIP_body (x : Deps) (c : AppGwIngressController)
    (cbCtx : ConfigBuilderContext) (appGwHasPrivateIP : Bool) (st : List Ptr × World)
    (ingress : Ptr) : List Ptr × World :=
  let prunedIngresses := st.1
  let w := st.2
  let obj := w.heap ingress
  let r := x.UsePrivateIP obj
  let usePrivateIP := r.1
  let w := pruneNoPrivateIP_logInvalid x w obj r.2
  let usePrivateIP := usePrivateIP || decide (cbCtx.EnvVariables.UsePrivateIP = "true")
  if usePrivateIP && !appGwHasPrivateIP then
    let errorLine := noPrivateIPErrorLine c obj
    (prunedIngresses,
      { w with
        glog := w.glog ++ [errorLine]
        events := w.events ++ [⟨ingress, EventTypeWarning, x.ReasonNoPrivateIPError, errorLine⟩] })
  else
    (prunedIngresses ++ [ingress], w)

/-- Embedding of `pruneNoPrivateIP`. -/
def pruneNoPrivateIP (x : Deps) : pruneFunc := fun c appGw cbCtx ingressList w =>
  let appGwHasPrivateIP :=
    (LookupIPConfigurationByType appGw.FrontendIPConfigurations true).isSome
  ingressList.foldl (pruneNoPrivateIP_body x c cbCtx appGwHasPrivateIP) ([], w)

/-- Package-level variables of `prune.go`: `once` (whether `once.Do` has run its body) and
`pruneFuncList`. -/
structure Globals where
  once : Bool
  pruneFuncList : List pruneFunc

/-- State of the package-level variables at process start. -/
def Globals.init : Globals := ⟨false, []⟩

/-- Body of the function passed to `once.Do` in `PruneIngress`. -/
def PruneIngress_assemble (x : Deps) (cbCtx : ConfigBuilderContext)
    (pruneFuncList : List pruneFunc) : List pruneFunc :=
  let pruneFuncList :=
    if cbCtx.EnvVariables.EnableBrownfieldDeployment = "true" then
      pruneFuncList ++ [pruneProhibitedIngress x]
    else pruneFuncList
  pruneFuncList ++ [pruneNoPrivateIP x, pruneKubeSystemIngress]

/-- The loop of `PruneIngress`: every stage is applied to the previous stage's output. -/
def runPruneFuncs (c : AppGwIngressController) (appGw : ApplicationGateway)
    (cbCtx : ConfigBuilderContext) (stages : List pruneFunc) (st : List Ptr × World) :
    List Ptr × World :=
  stages.foldl (fun st prune => prune c appGw cbCtx st.1 st.2) st

/-- Embedding of `PruneIngress`: returns the pruned list, the package-level variables and the
surroundings after the call. -/
def PruneIngress (x : Deps) (c : AppGwIngressController) (appGw : ApplicationGateway)
    (cbCtx : ConfigBuilderContext) (g : Globals) (w : World) : List Ptr × Globals × World :=
  let g : Globals :=
    if g.once then g else ⟨true, PruneIngress_assemble x cbCtx g.pruneFuncList⟩
  let r := runPruneFuncs c appGw cbCtx g.pruneFuncList (cbCtx.IngressList, w)
  (r.1, g, r.2)

/-- States of the package-level variables that the process can be in: the state at process
start and every state left by a call of `PruneIngress`. -/
inductive Reachable (x : Deps) : Globals → Prop
  | start : Reachable x Globals.init
  | call (c : AppGwIngressController) (appGw : ApplicationGateway)
      (cbCtx : ConfigBuilderContext) (g : Globals) (w : World) :
      Reachable x g → Reachable x (PruneIngress x c appGw cbCtx g w).2.1

/-- One invocation of `PruneIngress`: its arguments and the surroundings it runs in. -/
structure Call where
  c : AppGwIngressController
  appGw : ApplicationGateway
  cbCtx : ConfigBuilderContext
  w : World

/-- The package-level variables after a sequence of `PruneIngress` calls. The surroundings of
each call are arbitrary: other code may change objects and logs between calls, but only
`PruneIngress` touches `once` and `pruneFuncList`. -/
def runCalls (x : Deps) : List Call → Globals → Globals
  | [], g => g
  | k :: ks, g => runCalls x ks (PruneIngress x k.c k.appGw k.cbCtx g k.w).2.1

/-! ## Definitions: the vocabulary of the pruning contract -/

/-- The ingress requests a private IP: the annotation reader returns true for it, or the
controller-wide flag `EnvVariables.UsePrivateIP` is `"true"`. -/
def requestsPrivateIP (x : Deps) (cbCtx : ConfigBuilderContext) (obj : Ingress) : Bool :=
  (x.UsePrivateIP obj).1 || decide (cbCtx.EnvVariables.UsePrivateIP = "true")

/-- The gateway snapshot has at least one private-typed frontend IP configuration. -/
def hasPrivateFrontend (appGw : ApplicationGateway) : Bool :=
  appGw.FrontendIPConfigurations.any (fun ip => ip.IsPrivate)

/-- The warning event recorded against the ingress addressed by `p`. -/
def noPrivateIPEvent (x : Deps) (c : AppGwIngressController) (heap : Ptr → Ingress)
    (p : Ptr) : Event :=
  ⟨p, EventTypeWarning, x.ReasonNoPrivateIPError, noPrivateIPErrorLine c (heap p)⟩

/-- Namespace and name of the ingress addressed by `p`. -/
def identity (heap : Ptr → Ingress) (p : Ptr) : String × String :=
  ((heap p).Namespace, (heap p).Name)

/-- The object that one iteration of the loop of `pruneProhibitedIngress` writes in place of
`obj`: the same ingress with its rules replaced by the pruned rules. -/
def withPrunedRules (x : Deps) (targets : List ProhibitedTarget) (obj : Ingress) : Ingress :=
  { obj with Spec := { obj.Spec with Rules := x.PruneIngressRules obj targets } }

/-! ## Definitions: fixtures for concrete evaluations -/

/-- Annotation key of the sample annotation reader. -/
def sampleUsePrivateIPKey : String := "appgw.ingress.kubernetes.io/use-private-ip"

/-- Sample annotation reader: absent key gives false, `"true"` / `"false"` parse, anything
else is an error with the value false. -/
def sampleUsePrivateIP (ing : Ingress) : Bool × Option error :=
  match ing.Annotations.lookup sampleUsePrivateIPKey with
  | none => (false, none)
  | some v =>
    if v = "true" then (true, none)
    else if v = "false" then (false, none)
    else (false, some ⟨"invalid content"⟩)

/-- Sample rule pruner: removes the paths routing to a prohibited service and port of the
ingress's namespace, and the rules left without a path. -/
def samplePruneIngressRules (ing : Ingress) (targets : List ProhibitedTarget) :
    List IngressRule :=
  ing.Spec.Rules.filterMap (fun r =>
    let paths := r.Paths.filter (fun p =>
      !(targets.any (fun t =>
        t.Namespace == ing.Namespace && t.Target == p.ServiceName &&
          t.Ports.contains p.ServicePort)))
    if paths.isEmpty then none else some { r with Paths := paths })

/-- Sample collaborators: the sample annotation reader, a classifier recognising its error,
the sample rule pruner and a reason code. -/
def sampleDeps : Deps where
  UsePrivateIP := sampleUsePrivateIP
  UsePrivateIPKey := sampleUsePrivateIPKey
  IsInvalidContent := fun e => e.msg == "invalid content"
  PruneIngressRules := samplePruneIngressRules
  ReasonNoPrivateIPError := "NoPrivateIP"

/-- Collaborators whose annotation reader reports an invalid-content error for every ingress
and returns the value true alongside it. -/
def trueOnErrorDeps : Deps where
  UsePrivateIP := fun _ => (true, some ⟨"invalid content"⟩)
  UsePrivateIPKey := sampleUsePrivateIPKey
  IsInvalidContent := fun e => e.msg == "invalid content"
  PruneIngressRules := fun ing _ => ing.Spec.Rules
  ReasonNoPrivateIPError := "NoPrivateIP"

/-- Sample heap: object 0 requests a private IP, object 1 has no annotation and routes to
`svcA:80` and `svcB:80`, object 2 lives in `kube-system`, object 3 has a malformed annotation;
other addresses hold an empty object. -/
def sampleHeap : Ptr → Ingress
  | 0 => ⟨"ns1", "private", [(sampleUsePrivateIPKey, "true")], ⟨[]⟩⟩
  | 1 => ⟨"ns1", "plain", [],
      ⟨[⟨"a.example.com", [⟨"/", "svcA", 80⟩]⟩, ⟨"b.example.com", [⟨"/", "svcB", 80⟩]⟩]⟩⟩
  | 2 => ⟨"kube-system", "dashboard", [], ⟨[]⟩⟩
  | 3 => ⟨"ns1", "malformed", [(sampleUsePrivateIPKey, "yes please")], ⟨[]⟩⟩
  | _ => ⟨"", "", [], ⟨[]⟩⟩

/-- Sample surroundings with empty logs. -/
def sampleWorld : World := ⟨sampleHeap, [], []⟩

/-- Sample controller. -/
def sampleController : AppGwIngressController := ⟨⟨"gw"⟩⟩

/-- Gateway snapshot with only a public frontend. -/
def publicOnlyGateway : ApplicationGateway := ⟨[⟨"public", false⟩]⟩

/-- Build context over the given list and flags, with no prohibited targets. -/
def sampleCtx (l : List Ptr) (brownfield usePrivateIP : String) : ConfigBuilderContext :=
  ⟨l, ⟨brownfield, usePrivateIP⟩, []⟩

/-- Build context over the given list and brownfield flag, with `svcA:80` of `ns1` prohibited
and the force flag unset. -/
def brownfieldCtx (l : List Ptr) (brownfield : String) : ConfigBuilderContext :=
  ⟨l, ⟨brownfield, ""⟩, [⟨"ns1", "svcA", [80]⟩]⟩

/-! ## Theorems: Istio port resolver -/

theorem mem_resolveSubsetPorts (portName : String) (n : Int) (ports : List EndpointPort) :
    ∀ acc : Finset Int, n ∈ resolveSubsetPorts portName ports acc ↔
      n ∈ acc ∨ ∃ e ∈ ports, e.Name = portName ∧ e.Port = n := by
  induction ports with
  | nil => intro acc; simp [resolveSubsetPorts]
  | cons e es ih =>
    intro acc
    have step : resolveSubsetPorts portName (e :: es) acc =
        resolveSubsetPorts portName es
          (if e.Name = portName then insert e.Port acc else acc) := rfl
    rw [step, ih]
    by_cases h : e.Name = portName
    · simp only [h, if_true, Finset.mem_insert, List.mem_cons, exists_eq_or_imp, true_and]
      constructor
      · rintro ((h1 | h1) | h1)
        · exact Or.inr (Or.inl h1.symm)
        · exact Or.inl h1
        · exact Or.inr (Or.inr h1)
      · rintro (h1 | h1 | h1)
        · exact Or.inl (Or.inr h1)
        · exact Or.inl (Or.inl h1.symm)
        · exact Or.inr h1
    · simp [h]

theorem mem_resolveSubsets (portName : String) (n : Int) (subsets : List EndpointSubset) :
    ∀ acc : Finset Int, n ∈ resolveSubsets portName subsets acc ↔
      n ∈ acc ∨ ∃ s ∈ subsets, ∃ e ∈ s.Ports, e.Name = portName ∧ e.Port = n := by
  induction subsets with
  | nil => intro acc; simp [resolveSubsets]
  | cons s ss ih =>
    intro acc
    have step : resolveSubsets portName (s :: ss) acc =
        resolveSubsets portName ss (resolveSubsetPorts portName s.Ports acc) := rfl
    rw [step, ih, mem_resolveSubsetPorts]
    simp only [List.mem_cons, exists_eq_or_imp]
    exact or_assoc

theorem resolveIstioPortName_of_endpoints (serviceKey : serviceIdentifier → String)
    (c : appGwConfigBuilder) (portName : String) (d : istioDestinationIdentifier)
    (E : Endpoints)
    (h : c.k8sContext.GetEndpointsByService (serviceKey d.serviceIdentifier) = (some E, none)) :
    resolveIstioPortName serviceKey c portName (some d) =
      some (resolveSubsets portName E.Subsets ∅) := by
  simp [resolveIstioPortName, h]

theorem resolveSubsets_append (portName : String) (A B : List EndpointSubset) :
    resolveSubsets portName (A ++ B) ∅ =
      resolveSubsets portName A ∅ ∪ resolveSubsets portName B ∅ := by
  ext n
  simp only [mem_resolveSubsets, Finset.mem_union, List.mem_append, Finset.not_mem_empty,
    false_or]
  constructor
  · rintro ⟨s, hs | hs, r⟩
    · exact Or.inl ⟨s, hs, r⟩
    · exact Or.inr ⟨s, hs, r⟩
  · rintro (⟨s, hs, r⟩ | ⟨s, hs, r⟩)
    · exact ⟨s, Or.inl hs, r⟩
    · exact ⟨s, Or.inr hs, r⟩

/-- C1: when the endpoint lookup succeeds with a non-nil endpoints object `E`, the call returns
a map, and a port number `n` is one of its keys if and only if some subset of `E.Subsets` has a
port entry named `portName` whose port is `n`. -/
theorem resolveIstioPortName_keys (serviceKey : serviceIdentifier → String)
    (c : appGwConfigBuilder) (portName : String) (d : istioDestinationIdentifier)
    (E : Endpoints)
    (h : c.k8sContext.GetEndpointsByService (serviceKey d.serviceIdentifier) = (some E, none)) :
    ∃ m, resolveIstioPortName serviceKey c portName (some d) = some m ∧
      ∀ n : Int, n ∈ m ↔ ∃ s ∈ E.Subsets, ∃ e ∈ s.Ports, e.Name = portName ∧ e.Port = n := by
  refine ⟨_, resolveIstioPortName_of_endpoints serviceKey c portName d E h, ?_⟩
  intro n
  simp [mem_resolveSubsets]

theorem resolveIstioPortName_keys_witness :
    ∃ m, resolveIstioPortName sampleServiceKey
        (cacheReturning (some ⟨[⟨[], [⟨"http", 8080⟩]⟩, ⟨[], [⟨"grpc", 9090⟩]⟩]⟩, none))
        "http" (some sampleDestination) = some m ∧
      ∀ n : Int, n ∈ m ↔
        ∃ s ∈ (⟨[⟨[], [⟨"http", 8080⟩]⟩, ⟨[], [⟨"grpc", 9090⟩]⟩]⟩ : Endpoints).Subsets,
          ∃ e ∈ s.Ports, e.Name = "http" ∧ e.Port = n :=
  resolveIstioPortName_keys sampleServiceKey _ "http" sampleDestination _ rfl

/-- C2: when `GetEndpointsByService` returns an error, or no error together with a nil endpoints
object, the call returns the empty map; the result carries no error. -/
theorem resolveIstioPortName_lookup_failure (serviceKey : serviceIdentifier → String)
    (c : appGwConfigBuilder) (portName : String) (d : istioDestinationIdentifier)
    (h : (c.k8sContext.GetEndpointsByService (serviceKey d.serviceIdentifier)).2 ≠ none ∨
      c.k8sContext.GetEndpointsByService (serviceKey d.serviceIdentifier) = (none, none)) :
    resolveIstioPortName serviceKey c portName (some d) = some ∅ := by
  unfold resolveIstioPortName
  rcases hr : c.k8sContext.GetEndpointsByService (serviceKey d.serviceIdentifier) with
    ⟨ep, err⟩
  rw [hr] at h
  cases err with
  | some e => simp [hr]
  | none =>
    cases ep with
    | none => simp [hr]
    | some E => rcases h with h | h <;> simp at h

theorem resolveIstioPortName_lookup_failure_witness :
    resolveIstioPortName sampleServiceKey
      (cacheReturning (some ⟨[⟨[], [⟨"http", 8080⟩]⟩]⟩, some ⟨"cache unavailable"⟩)) "http"
      (some sampleDestination) = some ∅ :=
  resolveIstioPortName_lookup_failure sampleServiceKey _ "http" sampleDestination
    (Or.inl (by simp [cacheReturning]))

/-- C3: the resolver has set semantics. The result for subsets `A ++ B` is the union of the
results for `A` and for `B`; two endpoints objects exposing the same port entries (in any order
and multiplicity, however split into subsets) resolve to the same map; two subsets exposing
`"http"` at 8080 resolve to exactly `{8080}`, with one key, and two subsets exposing `"http"` at
8080 and 9090 resolve to exactly `{8080, 9090}`. -/
theorem resolveIstioPortName_set_semantics :
    (∀ (serviceKey : serviceIdentifier → String) (portName : String)
        (d : istioDestinationIdentifier) (A B : List EndpointSubset),
      ∃ rA rB,
        resolveIstioPortName serviceKey (cacheReturning (some ⟨A⟩, none)) portName (some d)
          = some rA ∧
        resolveIstioPortName serviceKey (cacheReturning (some ⟨B⟩, none)) portName (some d)
          = some rB ∧
        resolveIstioPortName serviceKey (cacheReturning (some ⟨A ++ B⟩, none)) portName
          (some d) = some (rA ∪ rB)) ∧
    (∀ (serviceKey : serviceIdentifier → String) (portName : String)
        (d : istioDestinationIdentifier) (E₁ E₂ : Endpoints),
      (∀ e : EndpointPort,
        (∃ s ∈ E₁.Subsets, e ∈ s.Ports) ↔ (∃ s ∈ E₂.Subsets, e ∈ s.Ports)) →
      resolveIstioPortName serviceKey (cacheReturning (some E₁, none)) portName (some d) =
        resolveIstioPortName serviceKey (cacheReturning (some E₂, none)) portName (some d)) ∧
    (∃ m, resolveIstioPortName sampleServiceKey
        (cacheReturning (some ⟨[⟨[], [⟨"http", 8080⟩]⟩, ⟨[], [⟨"http", 8080⟩]⟩]⟩, none))
        "http" (some sampleDestination) = some m ∧ m = {8080} ∧ m.card = 1) ∧
    resolveIstioPortName sampleServiceKey
        (cacheReturning (some ⟨[⟨[], [⟨"http", 8080⟩]⟩, ⟨[], [⟨"http", 9090⟩]⟩]⟩, none))
        "http" (some sampleDestination) = some {8080, 9090} := by
  refine ⟨?_, ?_, ?_, ?_⟩
  · intro serviceKey portName d A B
    refine ⟨_, _, rfl, rfl, ?_⟩
    rw [resolveIstioPortName_of_endpoints serviceKey _ portName d ⟨A ++ B⟩ rfl]
    exact congrArg some (resolveSubsets_append portName A B)
  · intro serviceKey portName d E₁ E₂ h
    rw [resolveIstioPortName_of_endpoints serviceKey _ portName d E₁ rfl,
      resolveIstioPortName_of_endpoints serviceKey _ portName d E₂ rfl]
    congr 1
    ext n
    simp only [mem_resolveSubsets, Finset.not_mem_empty, false_or]
    constructor
    · rintro ⟨s, hs, e, he, r⟩
      obtain ⟨s', hs', he'⟩ := (h e).1 ⟨s, hs, he⟩
      exact ⟨s', hs', e, he', r⟩
    · rintro ⟨s, hs, e, he, r⟩
      obtain ⟨s', hs', he'⟩ := (h e).2 ⟨s, hs, he⟩
      exact ⟨s', hs', e, he', r⟩
  · exact ⟨_, rfl, by decide, by decide⟩
  · simp [resolveIstioPortName, cacheReturning, resolveSubsets, resolveSubsetPorts]
    ext n; simp; tauto

theorem resolveIstioPortName_set_semantics_witness :
    resolveIstioPortName sampleServiceKey
        (cacheReturning (some ⟨[⟨[], [⟨"http", 8080⟩, ⟨"http", 9090⟩]⟩]⟩, none)) "http"
        (some sampleDestination) =
      resolveIstioPortName sampleServiceKey
        (cacheReturning
          (some ⟨[⟨[], [⟨"http", 9090⟩]⟩, ⟨["10.0.0.1"], [⟨"http", 8080⟩, ⟨"http", 9090⟩]⟩]⟩,
            none))
        "http" (some sampleDestination) :=
  resolveIstioPortName_set_semantics.2.1 sampleServiceKey "http" sampleDestination _ _
    (by
      intro e
      simp only [List.mem_cons, List.mem_singleton, exists_eq_or_imp, List.not_mem_nil,
        exists_false, or_false, exists_eq_left]
      tauto)

/-! ## Theorems: the private-IP stage -/

theorem LookupIPConfigurationByType_isSome (l : List FrontendIPConfiguration) :
    (LookupIPConfigurationByType l true).isSome = l.any (fun ip => ip.IsPrivate) := by
  induction l with
  | nil => rfl
  | cons ip ips ih =>
    unfold LookupIPConfigurationByType at ih ⊢
    cases hp : ip.IsPrivate
    · simp only [List.find?, hp, List.any_cons, Bool.false_or]
      exact ih
    · simp [List.find?, hp]

theorem pruneNoPrivateIP_logInvalid_frame (x : Deps) (w : World) (obj : Ingress)
    (err : Option error) :
    (pruneNoPrivateIP_logInvalid x w obj err).heap = w.heap ∧
    (pruneNoPrivateIP_logInvalid x w obj err).events = w.events := by
  unfold pruneNoPrivateIP_logInvalid
  cases err with
  | none => exact ⟨rfl, rfl⟩
  | some e => by_cases hi : x.IsInvalidContent e = true <;> simp [hi]

theorem pruneNoPrivateIP_body_spec (x : Deps) (c : AppGwIngressController)
    (cbCtx : ConfigBuilderContext) (b : Bool) (st : List Ptr × World) (p : Ptr) :
    (pruneNoPrivateIP_body x c cbCtx b st p).2.heap = st.2.heap ∧
    (pruneNoPrivateIP_body x c cbCtx b st p).1 =
      (if (requestsPrivateIP x cbCtx (st.2.heap p) && !b) = true then st.1
        else st.1 ++ [p]) ∧
    (pruneNoPrivateIP_body x c cbCtx b st p).2.events =
      (if (requestsPrivateIP x cbCtx (st.2.heap p) && !b) = true then
        st.2.events ++ [noPrivateIPEvent x c st.2.heap p]
        else st.2.events) := by
  have hl := pruneNoPrivateIP_logInvalid_frame x st.2 (st.2.heap p)
    (x.UsePrivateIP (st.2.heap p)).2
  simp only [pruneNoPrivateIP_body, requestsPrivateIP, noPrivateIPEvent]
  by_cases hd : (((x.UsePrivateIP (st.2.heap p)).1 ||
      decide (cbCtx.EnvVariables.UsePrivateIP = "true")) && !b) = true
  · rw [if_pos hd, if_pos hd, if_pos hd]
    exact ⟨hl.1, rfl, congrArg (fun l => l ++ _) hl.2⟩
  · rw [if_neg hd, if_neg hd, if_neg hd]
    exact ⟨hl.1, rfl, hl.2⟩

theorem pruneNoPrivateIP_foldl (x : Deps) (c : AppGwIngressController)
    (cbCtx : ConfigBuilderContext) (b : Bool) (l : List Ptr) :
    ∀ st : List Ptr × World,
      (l.foldl (pruneNoPrivateIP_body x c cbCtx b) st).2.heap = st.2.heap ∧
      (l.foldl (pruneNoPrivateIP_body x c cbCtx b) st).1 =
        st.1 ++ l.filter (fun p => !(requestsPrivateIP x cbCtx (st.2.heap p) && !b)) ∧
      (l.foldl (pruneNoPrivateIP_body x c cbCtx b) st).2.events =
        st.2.events ++
          (l.filter (fun p => requestsPrivateIP x cbCtx (st.2.heap p) && !b)).map
            (noPrivateIPEvent x c st.2.heap) := by
  induction l with
  | nil => intro st; simp
  | cons p ps ih =>
    intro st
    obtain ⟨h1, h2, h3⟩ := pruneNoPrivateIP_body_spec x c cbCtx b st p
    obtain ⟨i1, i2, i3⟩ := ih (pruneNoPrivateIP_body x c cbCtx b st p)
    simp only [List.foldl_cons]
    rw [i1, i2, i3, h1, h2, h3]
    refine ⟨rfl, ?_, ?_⟩
    · rw [List.filter_cons]
      cases hd : (requestsPrivateIP x cbCtx (st.2.heap p) && !b) <;> simp
    · rw [List.filter_cons]
      cases hd : (requestsPrivateIP x cbCtx (st.2.heap p) && !b) <;> simp

theorem pruneNoPrivateIP_spec (x : Deps) (c : AppGwIngressController)
    (appGw : ApplicationGateway) (cbCtx : ConfigBuilderContext) (l : List Ptr) (w : World) :
    (pruneNoPrivateIP x c appGw cbCtx l w).2.heap = w.heap ∧
    (pruneNoPrivateIP x c appGw cbCtx l w).1 =
      l.filter (fun p =>
        !(requestsPrivateIP x cbCtx (w.heap p) && !hasPrivateFrontend appGw)) ∧
    (pruneNoPrivateIP x c appGw cbCtx l w).2.events =
      w.events ++
        (l.filter (fun p =>
          requestsPrivateIP x cbCtx (w.heap p) && !hasPrivateFrontend appGw)).map
          (noPrivateIPEvent x c w.heap) := by
  have h := pruneNoPrivateIP_foldl x c cbCtx
    (LookupIPConfigurationByType appGw.FrontendIPConfigurations true).isSome l ([], w)
  rw [LookupIPConfigurationByType_isSome] at h
  simpa [pruneNoPrivateIP, hasPrivateFrontend, LookupIPConfigurationByType_isSome] using h

/-- C4: `pruneNoPrivateIP` returns exactly the sublist of its input, in original order, of the
ingresses for which it is not the case that the ingress requests a private IP (annotation
reader true, or `EnvVariables.UsePrivateIP == "true"`) while the gateway has no private-typed
frontend IP configuration. -/
theorem pruneNoPrivateIP_filter (x : Deps) (c : AppGwIngressController)
    (appGw : ApplicationGateway) (cbCtx : ConfigBuilderContext) (ingressList : List Ptr)
    (w : World) :
    (pruneNoPrivateIP x c appGw cbCtx ingressList w).1 =
      ingressList.filter (fun p =>
        !(((x.UsePrivateIP (w.heap p)).1 || decide (cbCtx.EnvVariables.UsePrivateIP = "true"))
          && !(appGw.FrontendIPConfigurations.any (fun ip => ip.IsPrivate)))) ∧
    (pruneNoPrivateIP x c appGw cbCtx ingressList w).1.Sublist ingressList := by
  have h := (pruneNoPrivateIP_spec x c appGw cbCtx ingressList w).2.1
  refine ⟨h, ?_⟩
  rw [h]
  exact List.filter_sublist _

theorem pruneNoPrivateIP_not_mem_iff (x : Deps) (c : AppGwIngressController)
    (appGw : ApplicationGateway) (cbCtx : ConfigBuilderContext) (l : List Ptr) (w : World)
    (p : Ptr) (hp : p ∈ l) :
    p ∉ (pruneNoPrivateIP x c appGw cbCtx l w).1 ↔
      (requestsPrivateIP x cbCtx (w.heap p) && !hasPrivateFrontend appGw) = true := by
  rw [(pruneNoPrivateIP_spec x c appGw cbCtx l w).2.1, List.mem_filter]
  cases (requestsPrivateIP x cbCtx (w.heap p) && !hasPrivateFrontend appGw) <;> simp [hp]

theorem count_events_for (x : Deps) (c : AppGwIngressController) (heap : Ptr → Ingress)
    (D : Ptr → Bool) (l : List Ptr) (p : Ptr) :
    (((l.filter D).map (noPrivateIPEvent x c heap)).filter
        (fun e => decide (e.object = p))).length =
      if D p = true then l.count p else 0 := by
  induction l with
  | nil => simp
  | cons q qs ih =>
    rw [List.filter_cons]
    by_cases hq : D q = true
    · rw [if_pos hq, List.map_cons, List.filter_cons]
      by_cases hqp : q = p
      · subst hqp
        simp only [noPrivateIPEvent, decide_True, if_true, List.length_cons, ih, hq,
          List.count_cons_self]
      · have hne : (q == p) = false := by simpa using hqp
        simp only [noPrivateIPEvent, hqp, decide_False, List.count_cons, hne]
        simpa [noPrivateIPEvent] using ih
    · rw [if_neg hq, ih]
      by_cases hp : D p = true
      · have hqp : (q == p) = false := by
          have : q ≠ p := fun h => hq (h ▸ hp)
          simpa using this
        simp [hp, List.count_cons, hqp]
      · simp [hp]

/-- C5: with the event recorder as an explicit log, one call of `pruneNoPrivateIP` appends to
the log exactly one warning event with reason `ReasonNoPrivateIPError` for each entry of the
input list that it drops, in input order, each referencing the dropped ingress; hence the
number of new events referencing an ingress is zero when the ingress is retained and the number
of its entries in the input list (one, in a list without repetition) when it is dropped. With a
public-only gateway and the force flag unset, an ingress annotated to use a private IP is
removed with exactly one event and an un-annotated ingress is retained with none. -/
theorem pruneNoPrivateIP_events :
    (∀ (x : Deps) (c : AppGwIngressController) (appGw : ApplicationGateway)
        (cbCtx : ConfigBuilderContext) (ingressList : List Ptr) (w : World),
      ∃ new : List Event,
        (pruneNoPrivateIP x c appGw cbCtx ingressList w).2.events = w.events ++ new ∧
        new =
          (ingressList.filter
            (fun p => decide (p ∉ (pruneNoPrivateIP x c appGw cbCtx ingressList w).1))).map
            (fun p => ⟨p, EventTypeWarning, x.ReasonNoPrivateIPError,
              noPrivateIPErrorLine c (w.heap p)⟩) ∧
        ∀ p : Ptr,
          (new.filter (fun e => decide (e.object = p))).length =
            if p ∈ (pruneNoPrivateIP x c appGw cbCtx ingressList w).1 then 0
            else ingressList.count p) ∧
    (pruneNoPrivateIP sampleDeps sampleController publicOnlyGateway
        (sampleCtx [0, 1] "false" "") [0, 1] sampleWorld).1 = [1] ∧
    (pruneNoPrivateIP sampleDeps sampleController publicOnlyGateway
        (sampleCtx [0, 1] "false" "") [0, 1] sampleWorld).2.events =
      [⟨0, "Warning", "NoPrivateIP",
        "Ingress ns1/private requires Application Gateway gw has a private IP adress"⟩] := by
  refine ⟨?_, by decide, by decide⟩
  intro x c appGw cbCtx l w
  obtain ⟨_, hout, hev⟩ := pruneNoPrivateIP_spec x c appGw cbCtx l w
  have hfil : l.filter
        (fun p => decide (p ∉ (pruneNoPrivateIP x c appGw cbCtx l w).1)) =
      l.filter (fun p =>
        requestsPrivateIP x cbCtx (w.heap p) && !hasPrivateFrontend appGw) := by
    apply List.filter_congr
    intro p hp
    have h := pruneNoPrivateIP_not_mem_iff x c appGw cbCtx l w p hp
    cases hd : (requestsPrivateIP x cbCtx (w.heap p) && !hasPrivateFrontend appGw)
    · rw [hd] at h
      simpa using h
    · rw [hd] at h
      simpa using h
  refine ⟨_, hev, ?_, ?_⟩
  · rw [hfil]
    rfl
  · intro p
    rw [count_events_for]
    by_cases hd : (requestsPrivateIP x cbCtx (w.heap p) && !hasPrivateFrontend appGw) = true
    · have hnot : p ∉ (pruneNoPrivateIP x c appGw cbCtx l w).1 := by
        rw [hout, List.mem_filter]
        simp [hd]
      rw [if_pos hd, if_neg hnot]
    · rw [if_neg hd]
      by_cases hp : p ∈ l
      · have hin : p ∈ (pruneNoPrivateIP x c appGw cbCtx l w).1 := by
          by_contra hcon
          exact hd ((pruneNoPrivateIP_not_mem_iff x c appGw cbCtx l w p hp).1 hcon)
        rw [if_pos hin]
      · have hnot : p ∉ (pruneNoPrivateIP x c appGw cbCtx l w).1 := by
          rw [hout, List.mem_filter]
          exact fun h => hp h.1
        rw [if_neg hnot, List.count_eq_zero_of_not_mem hp]

theorem pruneNoPrivateIP_new_event_objects (x : Deps) (c : AppGwIngressController)
    (appGw : ApplicationGateway) (cbCtx : ConfigBuilderContext) (l : List Ptr) (w : World)
    (ev : Event)
    (hev : ev ∈ (pruneNoPrivateIP x c appGw cbCtx l w).2.events.drop w.events.length) :
    ev.object ∈ l ∧
      (requestsPrivateIP x cbCtx (w.heap ev.object) && !hasPrivateFrontend appGw) = true := by
  rw [(pruneNoPrivateIP_spec x c appGw cbCtx l w).2.2, List.drop_left, List.mem_map] at hev
  obtain ⟨q, hq, rfl⟩ := hev
  rw [List.mem_filter] at hq
  exact hq

theorem pruneNoPrivateIP_body_glog (x : Deps) (c : AppGwIngressController)
    (cbCtx : ConfigBuilderContext) (b : Bool) (st : List Ptr × World) (p : Ptr) :
    (∀ line ∈ st.2.glog, line ∈ (pruneNoPrivateIP_body x c cbCtx b st p).2.glog) ∧
    ∀ e, (x.UsePrivateIP (st.2.heap p)).2 = some e → x.IsInvalidContent e = true →
      ("Ingress " ++ (st.2.heap p).Namespace ++ "/" ++ (st.2.heap p).Name ++
        " has invalid value for annotation " ++ x.UsePrivateIPKey) ∈
        (pruneNoPrivateIP_body x c cbCtx b st p).2.glog := by
  have mono : ∀ line ∈ st.2.glog,
      line ∈ (pruneNoPrivateIP_logInvalid x st.2 (st.2.heap p)
        (x.UsePrivateIP (st.2.heap p)).2).glog := by
    intro line hl
    unfold pruneNoPrivateIP_logInvalid
    cases (x.UsePrivateIP (st.2.heap p)).2 with
    | none => exact hl
    | some e => by_cases hi : x.IsInvalidContent e = true <;> simp [hi, hl]
  have diag : ∀ e, (x.UsePrivateIP (st.2.heap p)).2 = some e → x.IsInvalidContent e = true →
      ("Ingress " ++ (st.2.heap p).Namespace ++ "/" ++ (st.2.heap p).Name ++
        " has invalid value for annotation " ++ x.UsePrivateIPKey) ∈
        (pruneNoPrivateIP_logInvalid x st.2 (st.2.heap p)
          (x.UsePrivateIP (st.2.heap p)).2).glog := by
    intro e he hi
    rw [he]
    simp [pruneNoPrivateIP_logInvalid, hi]
  simp only [pruneNoPrivateIP_body]
  by_cases hd : (((x.UsePrivateIP (st.2.heap p)).1 ||
      decide (cbCtx.EnvVariables.UsePrivateIP = "true")) && !b) = true
  · rw [if_pos hd]
    exact ⟨fun line hl => List.mem_append_left _ (mono line hl),
      fun e he hi => List.mem_append_left _ (diag e he hi)⟩
  · rw [if_neg hd]
    exact ⟨mono, diag⟩

theorem pruneNoPrivateIP_foldl_glog (x : Deps) (c : AppGwIngressController)
    (cbCtx : ConfigBuilderContext) (b : Bool) (l : List Ptr) :
    ∀ st : List Ptr × World,
      (∀ line ∈ st.2.glog, line ∈ (l.foldl (pruneNoPrivateIP_body x c cbCtx b) st).2.glog) ∧
      ∀ p ∈ l, ∀ e, (x.UsePrivateIP (st.2.heap p)).2 = some e → x.IsInvalidContent e = true →
        ("Ingress " ++ (st.2.heap p).Namespace ++ "/" ++ (st.2.heap p).Name ++
          " has invalid value for annotation " ++ x.UsePrivateIPKey) ∈
          (l.foldl (pruneNoPrivateIP_body x c cbCtx b) st).2.glog := by
  induction l with
  | nil => intro st; exact ⟨fun _ h => h, fun p hp => absurd hp (List.not_mem_nil p)⟩
  | cons q qs ih =>
    intro st
    obtain ⟨m1, d1⟩ := pruneNoPrivateIP_body_glog x c cbCtx b st q
    obtain ⟨m2, d2⟩ := ih (pruneNoPrivateIP_body x c cbCtx b st q)
    have hh := (pruneNoPrivateIP_body_spec x c cbCtx b st q).1
    rw [hh] at d2
    simp only [List.foldl_cons]
    refine ⟨fun line hl => m2 line (m1 line hl), ?_⟩
    intro p hp e he hi
    rcases List.mem_cons.1 hp with rfl | hp
    · exact m2 _ (d1 e he hi)
    · exact d2 p hp e he hi

/-- C6, refuted as stated: the sample ingress 3 has a malformed annotation (the reader returns
false with an invalid-content error), yet with the force flag `"true"` and a public-only
gateway it is dropped and an event is recorded for it; and when the reader returns true
alongside the invalid-content error, the ingress is dropped with the force flag unset. -/
theorem pruneNoPrivateIP_malformed_dropped :
    (sampleDeps.UsePrivateIP (sampleWorld.heap 3) = (false, some ⟨"invalid content"⟩) ∧
      sampleDeps.IsInvalidContent ⟨"invalid content"⟩ = true ∧
      (pruneNoPrivateIP sampleDeps sampleController publicOnlyGateway
        (sampleCtx [3] "false" "true") [3] sampleWorld).1 = [] ∧
      (pruneNoPrivateIP sampleDeps sampleController publicOnlyGateway
        (sampleCtx [3] "false" "true") [3] sampleWorld).2.events =
        [⟨3, "Warning", "NoPrivateIP",
          "Ingress ns1/malformed requires Application Gateway gw has a private IP adress"⟩]) ∧
    (trueOnErrorDeps.UsePrivateIP (sampleWorld.heap 3) = (true, some ⟨"invalid content"⟩) ∧
      trueOnErrorDeps.IsInvalidContent ⟨"invalid content"⟩ = true ∧
      (pruneNoPrivateIP trueOnErrorDeps sampleController publicOnlyGateway
        (sampleCtx [3] "false" "") [3] sampleWorld).1 = [] ∧
      (pruneNoPrivateIP trueOnErrorDeps sampleController publicOnlyGateway
        (sampleCtx [3] "false" "") [3] sampleWorld).2.events =
        [⟨3, "Warning", "NoPrivateIP",
          "Ingress ns1/malformed requires Application Gateway gw has a private IP adress"⟩]) := by
  refine ⟨⟨by decide, by decide, by decide, by decide⟩,
    ⟨by decide, by decide, by decide, by decide⟩⟩

/-- C6, amended: for an ingress of the input list whose private-IP annotation is malformed (the
reader returns a value `v` together with an error satisfying `IsInvalidContent`),
`pruneNoPrivateIP` writes a diagnostic and takes `v` or-ed with the force flag as the
ingress's private-IP request: the ingress is retained with no event recorded for it exactly
when it is not the case that (`v` is true or the force flag is `"true"`) and the gateway has no
private frontend. In particular, when `v` is false and the force flag is not `"true"`, the
ingress is retained and no event is recorded for it. -/
theorem pruneNoPrivateIP_malformed (x : Deps) (c : AppGwIngressController)
    (appGw : ApplicationGateway) (cbCtx : ConfigBuilderContext) (ingressList : List Ptr)
    (w : World) (p : Ptr) (v : Bool) (e : error)
    (hp : p ∈ ingressList)
    (hr : x.UsePrivateIP (w.heap p) = (v, some e))
    (hi : x.IsInvalidContent e = true) :
    ("Ingress " ++ (w.heap p).Namespace ++ "/" ++ (w.heap p).Name ++
        " has invalid value for annotation " ++ x.UsePrivateIPKey) ∈
      (pruneNoPrivateIP x c appGw cbCtx ingressList w).2.glog ∧
    ((p ∈ (pruneNoPrivateIP x c appGw cbCtx ingressList w).1 ∧
        ∀ ev ∈ (pruneNoPrivateIP x c appGw cbCtx ingressList w).2.events.drop w.events.length,
          ev.object ≠ p) ↔
      ¬ ((v = true ∨ cbCtx.EnvVariables.UsePrivateIP = "true") ∧
          appGw.FrontendIPConfigurations.any (fun ip => ip.IsPrivate) = false)) ∧
    (v = false → cbCtx.EnvVariables.UsePrivateIP ≠ "true" →
      p ∈ (pruneNoPrivateIP x c appGw cbCtx ingressList w).1 ∧
        ∀ ev ∈ (pruneNoPrivateIP x c appGw cbCtx ingressList w).2.events.drop w.events.length,
          ev.object ≠ p) := by
  have hD : (requestsPrivateIP x cbCtx (w.heap p) && !hasPrivateFrontend appGw) = true ↔
      ((v = true ∨ cbCtx.EnvVariables.UsePrivateIP = "true") ∧
        appGw.FrontendIPConfigurations.any (fun ip => ip.IsPrivate) = false) := by
    simp [requestsPrivateIP, hasPrivateFrontend, hr]
  have hmem := pruneNoPrivateIP_not_mem_iff x c appGw cbCtx ingressList w p hp
  have hkeep : ¬ ((v = true ∨ cbCtx.EnvVariables.UsePrivateIP = "true") ∧
        appGw.FrontendIPConfigurations.any (fun ip => ip.IsPrivate) = false) →
      p ∈ (pruneNoPrivateIP x c appGw cbCtx ingressList w).1 ∧
        ∀ ev ∈ (pruneNoPrivateIP x c appGw cbCtx ingressList w).2.events.drop w.events.length,
          ev.object ≠ p := by
    intro hn
    refine ⟨?_, ?_⟩
    · by_contra hcon
      exact hn (hD.1 (hmem.1 hcon))
    · intro ev hev hobj
      have h := (pruneNoPrivateIP_new_event_objects x c appGw cbCtx ingressList w ev hev).2
      rw [hobj] at h
      exact hn (hD.1 h)
  refine ⟨?_, ⟨?_, hkeep⟩, ?_⟩
  · have h := (pruneNoPrivateIP_foldl_glog x c cbCtx
      (LookupIPConfigurationByType appGw.FrontendIPConfigurations true).isSome ingressList
      ([], w)).2 p hp e (by rw [hr]) hi
    exact h
  · rintro ⟨hin, _⟩ hdrop
    exact (hmem.2 (hD.2 hdrop)) hin
  · intro hv hf
    apply hkeep
    rintro ⟨h | h, _⟩
    · rw [hv] at h; exact Bool.noConfusion h
    · exact hf h

theorem pruneNoPrivateIP_malformed_witness :
    (3 : Ptr) ∈ (pruneNoPrivateIP sampleDeps sampleController publicOnlyGateway
        (sampleCtx [1, 3] "false" "") [1, 3] sampleWorld).1 ∧
      ∀ ev ∈ (pruneNoPrivateIP sampleDeps sampleController publicOnlyGateway
          (sampleCtx [1, 3] "false" "") [1, 3] sampleWorld).2.events.drop
            sampleWorld.events.length,
        ev.object ≠ 3 :=
  (pruneNoPrivateIP_malformed sampleDeps sampleController publicOnlyGateway
    (sampleCtx [1, 3] "false" "") [1, 3] sampleWorld 3 false ⟨"invalid content"⟩
    (by decide) (by decide) (by decide)).2.2 rfl (by decide)

/-! ## Theorems: the pipeline -/

/-- C7, evaluated on the code: for the list `[1, 2]`, whose second entry addresses an ingress
of namespace `kube-system`, the loop of `pruneKubeSystemIngress` computes `ings = [1]`, but the
function returns the input list `[1, 2]`, which still holds the `kube-system` ingress. -/
theorem pruneKubeSystemIngress_keeps_kube_system :
    (sampleWorld.heap 2).Namespace = "kube-system" ∧
    pruneKubeSystemIngress_ings [1, 2] sampleWorld = [1] ∧
    (pruneKubeSystemIngress sampleController publicOnlyGateway (sampleCtx [1, 2] "false" "")
      [1, 2] sampleWorld).1 = [1, 2] := by
  refine ⟨by decide, by decide, by decide⟩

theorem pruneKubeSystemIngress_stage (c : AppGwIngressController)
    (appGw : ApplicationGateway) (cbCtx : ConfigBuilderContext) (l : List Ptr) (w : World) :
    (pruneKubeSystemIngress c appGw cbCtx l w).1.Sublist l ∧
      ∀ p, identity (pruneKubeSystemIngress c appGw cbCtx l w).2.heap p = identity w.heap p :=
  ⟨List.Sublist.refl l, fun _ => rfl⟩

theorem pruneNoPrivateIP_stage (x : Deps) (c : AppGwIngressController)
    (appGw : ApplicationGateway) (cbCtx : ConfigBuilderContext) (l : List Ptr) (w : World) :
    (pruneNoPrivateIP x c appGw cbCtx l w).1.Sublist l ∧
      ∀ p, identity (pruneNoPrivateIP x c appGw cbCtx l w).2.heap p = identity w.heap p := by
  obtain ⟨hh, hout, _⟩ := pruneNoPrivateIP_spec x c appGw cbCtx l w
  refine ⟨?_, fun p => by rw [hh]⟩
  rw [hout]
  exact List.filter_sublist _

theorem pruneProhibitedIngress_body_identity (x : Deps) (cbCtx : ConfigBuilderContext)
    (w : World) (q p : Ptr) :
    identity (pruneProhibitedIngress_body x cbCtx w q).heap p = identity w.heap p := by
  unfold pruneProhibitedIngress_body identity
  by_cases h : p = q
  · subst h
    simp [Function.update_same]
  · simp [Function.update_noteq h]

theorem pruneProhibitedIngress_foldl_identity (x : Deps) (cbCtx : ConfigBuilderContext)
    (l : List Ptr) :
    ∀ (w : World) (p : Ptr),
      identity (l.foldl (pruneProhibitedIngress_body x cbCtx) w).heap p = identity w.heap p := by
  induction l with
  | nil => intro w p; rfl
  | cons q qs ih =>
    intro w p
    rw [List.foldl_cons, ih, pruneProhibitedIngress_body_identity]

theorem pruneProhibitedIngress_stage (x : Deps) (c : AppGwIngressController)
    (appGw : ApplicationGateway) (cbCtx : ConfigBuilderContext) (l : List Ptr) (w : World) :
    (pruneProhibitedIngress x c appGw cbCtx l w).1.Sublist l ∧
      ∀ p, identity (pruneProhibitedIngress x c appGw cbCtx l w).2.heap p =
        identity w.heap p :=
  ⟨List.Sublist.refl l, pruneProhibitedIngress_foldl_identity x cbCtx l w⟩

theorem runPruneFuncs_stage (c : AppGwIngressController) (appGw : ApplicationGateway)
    (cbCtx : ConfigBuilderContext) (stages : List pruneFunc)
    (hs : ∀ f ∈ stages, ∀ (l : List Ptr) (w : World),
      (f c appGw cbCtx l w).1.Sublist l ∧
        ∀ p, identity (f c appGw cbCtx l w).2.heap p = identity w.heap p) :
    ∀ st : List Ptr × World,
      (runPruneFuncs c appGw cbCtx stages st).1.Sublist st.1 ∧
        ∀ p, identity (runPruneFuncs c appGw cbCtx stages st).2.heap p =
          identity st.2.heap p := by
  induction stages with
  | nil => intro st; exact ⟨List.Sublist.refl _, fun _ => rfl⟩
  | cons f fs ih =>
    intro st
    obtain ⟨h1, h2⟩ := hs f (List.mem_cons_self f fs) st.1 st.2
    obtain ⟨i1, i2⟩ :=
      ih (fun g hg => hs g (List.mem_cons_of_mem f hg)) (f c appGw cbCtx st.1 st.2)
    have step : runPruneFuncs c appGw cbCtx (f :: fs) st =
        runPruneFuncs c appGw cbCtx fs (f c appGw cbCtx st.1 st.2) := rfl
    rw [step]
    exact ⟨i1.trans h1, fun p => (i2 p).trans (h2 p)⟩

theorem Reachable_stages (x : Deps) (g : Globals) (hg : Reachable x g) :
    ∀ f ∈ g.pruneFuncList, ∀ (c : AppGwIngressController) (appGw : ApplicationGateway)
      (cbCtx : ConfigBuilderContext) (l : List Ptr) (w : World),
      (f c appGw cbCtx l w).1.Sublist l ∧
        ∀ p, identity (f c appGw cbCtx l w).2.heap p = identity w.heap p := by
  induction hg with
  | start => intro f hf; exact absurd hf (List.not_mem_nil f)
  | call c₀ appGw₀ cbCtx₀ g₀ w₀ _ ih =>
    intro f hf
    by_cases ho : g₀.once = true
    · have hsame : (PruneIngress x c₀ appGw₀ cbCtx₀ g₀ w₀).2.1 = g₀ := by
        simp [PruneIngress, ho]
      rw [hsame] at hf
      exact ih f hf
    · have hnew : (PruneIngress x c₀ appGw₀ cbCtx₀ g₀ w₀).2.1.pruneFuncList =
          PruneIngress_assemble x cbCtx₀ g₀.pruneFuncList := by
        simp [PruneIngress, ho]
      rw [hnew] at hf
      unfold PruneIngress_assemble at hf
      simp only [List.mem_append, List.mem_cons, List.mem_singleton, List.not_mem_nil,
        or_false] at hf
      rcases hf with hf | rfl | rfl
      · by_cases hb : cbCtx₀.EnvVariables.EnableBrownfieldDeployment = "true"
        · rw [if_pos hb, List.mem_append, List.mem_singleton] at hf
          rcases hf with hf | rfl
          · exact ih f hf
          · exact fun c appGw cbCtx l w => pruneProhibitedIngress_stage x c appGw cbCtx l w
        · rw [if_neg hb] at hf
          exact ih f hf
      · exact fun c appGw cbCtx l w => pruneNoPrivateIP_stage x c appGw cbCtx l w
      · exact fun c appGw cbCtx l w => pruneKubeSystemIngress_stage c appGw cbCtx l w

/-- C8: `PruneIngress` never adds ingresses. In every state of the package-level variables
that the process can reach, the namespace/name identities of the returned list form a
subsequence of those of `cbCtx.IngressList`; the returned pointers form a sublist of the input
pointers, so the output is never longer than the input and every returned ingress was a
candidate. -/
theorem PruneIngress_never_adds (x : Deps) (c : AppGwIngressController)
    (appGw : ApplicationGateway) (cbCtx : ConfigBuilderContext) (g : Globals) (w : World)
    (hg : Reachable x g) :
    ((PruneIngress x c appGw cbCtx g w).1.map
        (identity (PruneIngress x c appGw cbCtx g w).2.2.heap)).Sublist
      (cbCtx.IngressList.map (identity w.heap)) ∧
    (PruneIngress x c appGw cbCtx g w).1.Sublist cbCtx.IngressList ∧
    (PruneIngress x c appGw cbCtx g w).1.length ≤ cbCtx.IngressList.length ∧
    ∀ p ∈ (PruneIngress x c appGw cbCtx g w).1, p ∈ cbCtx.IngressList := by
  have hstages := Reachable_stages x _ (Reachable.call c appGw cbCtx g w hg)
  obtain ⟨hsub, hid⟩ := runPruneFuncs_stage c appGw cbCtx
    (PruneIngress x c appGw cbCtx g w).2.1.pruneFuncList
    (fun f hf l w' => hstages f hf c appGw cbCtx l w') (cbCtx.IngressList, w)
  have hres : (PruneIngress x c appGw cbCtx g w).1 =
      (runPruneFuncs c appGw cbCtx (PruneIngress x c appGw cbCtx g w).2.1.pruneFuncList
        (cbCtx.IngressList, w)).1 := rfl
  have hheap : (PruneIngress x c appGw cbCtx g w).2.2 =
      (runPruneFuncs c appGw cbCtx (PruneIngress x c appGw cbCtx g w).2.1.pruneFuncList
        (cbCtx.IngressList, w)).2 := rfl
  rw [hres, hheap]
  refine ⟨?_, hsub, hsub.length_le, fun p hp => hsub.subset hp⟩
  have hfun : identity (runPruneFuncs c appGw cbCtx
      (PruneIngress x c appGw cbCtx g w).2.1.pruneFuncList (cbCtx.IngressList, w)).2.heap =
      identity w.heap := funext hid
  rw [hfun]
  exact hsub.map _

theorem PruneIngress_never_adds_witness :
    ((PruneIngress sampleDeps sampleController publicOnlyGateway
        (brownfieldCtx [0, 1, 2, 3] "false")
        (PruneIngress sampleDeps sampleController publicOnlyGateway
          (brownfieldCtx [1] "true") Globals.init sampleWorld).2.1 sampleWorld).1.map
        (identity (PruneIngress sampleDeps sampleController publicOnlyGateway
          (brownfieldCtx [0, 1, 2, 3] "false")
          (PruneIngress sampleDeps sampleController publicOnlyGateway
            (brownfieldCtx [1] "true") Globals.init sampleWorld).2.1
          sampleWorld).2.2.heap)).Sublist
      ((brownfieldCtx [0, 1, 2, 3] "false").IngressList.map (identity sampleWorld.heap)) :=
  (PruneIngress_never_adds sampleDeps sampleController publicOnlyGateway
    (brownfieldCtx [0, 1, 2, 3] "false") _ sampleWorld
    (Reachable.call sampleController publicOnlyGateway (brownfieldCtx [1] "true")
      Globals.init sampleWorld Reachable.start)).1

/-- C9: the first `PruneIngress` call, from the empty stage list, leaves the stage list
`[pruneProhibitedIngress, pruneNoPrivateIP, pruneKubeSystemIngress]` when
`EnvVariables.EnableBrownfieldDeployment == "true"` at that call and
`[pruneNoPrivateIP, pruneKubeSystemIngress]` otherwise, and its result is that of applying the
stages in that order, each to the list and surroundings left by the previous one. -/
theorem PruneIngress_first_call (x : Deps) (c : AppGwIngressController)
    (appGw : ApplicationGateway) (cbCtx : ConfigBuilderContext) (w : World) :
    (PruneIngress x c appGw cbCtx Globals.init w).2.1.once = true ∧
    (PruneIngress x c appGw cbCtx Globals.init w).2.1.pruneFuncList =
      (if cbCtx.EnvVariables.EnableBrownfieldDeployment = "true" then
        [pruneProhibitedIngress x, pruneNoPrivateIP x, pruneKubeSystemIngress]
      else [pruneNoPrivateIP x, pruneKubeSystemIngress]) ∧
    ((PruneIngress x c appGw cbCtx Globals.init w).1,
        (PruneIngress x c appGw cbCtx Globals.init w).2.2) =
      (if cbCtx.EnvVariables.EnableBrownfieldDeployment = "true" then
        pruneKubeSystemIngress c appGw cbCtx
          (pruneNoPrivateIP x c appGw cbCtx
            (pruneProhibitedIngress x c appGw cbCtx cbCtx.IngressList w).1
            (pruneProhibitedIngress x c appGw cbCtx cbCtx.IngressList w).2).1
          (pruneNoPrivateIP x c appGw cbCtx
            (pruneProhibitedIngress x c appGw cbCtx cbCtx.IngressList w).1
            (pruneProhibitedIngress x c appGw cbCtx cbCtx.IngressList w).2).2
      else
        pruneKubeSystemIngress c appGw cbCtx
          (pruneNoPrivateIP x c appGw cbCtx cbCtx.IngressList w).1
          (pruneNoPrivateIP x c appGw cbCtx cbCtx.IngressList w).2) := by
  by_cases hb : cbCtx.EnvVariables.EnableBrownfieldDeployment = "true"
  · simp only [if_pos hb]
    refine ⟨rfl, ?_, ?_⟩
    · simp [PruneIngress, Globals.init, PruneIngress_assemble, hb]
    · simp [PruneIngress, Globals.init, PruneIngress_assemble, hb, runPruneFuncs]
  · simp only [if_neg hb]
    refine ⟨rfl, ?_, ?_⟩
    · simp [PruneIngress, Globals.init, PruneIngress_assemble, hb]
    · simp [PruneIngress, Globals.init, PruneIngress_assemble, hb, runPruneFuncs]

theorem PruneIngress_globals_of_once (x : Deps) (c : AppGwIngressController)
    (appGw : ApplicationGateway) (cbCtx : ConfigBuilderContext) (g : Globals) (w : World)
    (ho : g.once = true) :
    (PruneIngress x c appGw cbCtx g w).2.1 = g ∧
    ((PruneIngress x c appGw cbCtx g w).1, (PruneIngress x c appGw cbCtx g w).2.2) =
      runPruneFuncs c appGw cbCtx g.pruneFuncList (cbCtx.IngressList, w) := by
  simp [PruneIngress, ho]

theorem runCalls_of_once (x : Deps) (calls : List Call) :
    ∀ g : Globals, g.once = true → runCalls x calls g = g := by
  induction calls with
  | nil => intro g _; rfl
  | cons k ks ih =>
    intro g ho
    have h := (PruneIngress_globals_of_once x k.c k.appGw k.cbCtx g k.w ho).1
    simp only [runCalls]
    rw [h]
    exact ih g ho

/-- C10: frozen flag. With `once` and `pruneFuncList` as explicit state, after a first call
(from the state at process start) whose context carries the flag value F1, every further
sequence of calls leaves the package-level variables unchanged: the stage list stays the one
assembled from F1 and never grows. A later call, whatever flag value F2 its context carries,
leaves the variables unchanged and returns the result of running the F1-derived stage list. In
the sample run, a first call with brownfield `"false"` followed by a call with brownfield
`"true"` leaves the rule routing to the prohibited `svcA:80` in place, which a first call with
`"true"` removes. -/
theorem PruneIngress_frozen_stage_list :
    (∀ (x : Deps) (first : Call) (rest : List Call) (later : Call),
      runCalls x (first :: rest) Globals.init = runCalls x [first] Globals.init ∧
      (runCalls x (first :: rest) Globals.init).pruneFuncList =
        PruneIngress_assemble x first.cbCtx [] ∧
      (PruneIngress x later.c later.appGw later.cbCtx
          (runCalls x (first :: rest) Globals.init) later.w).2.1 =
        runCalls x (first :: rest) Globals.init ∧
      ((PruneIngress x later.c later.appGw later.cbCtx
            (runCalls x (first :: rest) Globals.init) later.w).1,
          (PruneIngress x later.c later.appGw later.cbCtx
            (runCalls x (first :: rest) Globals.init) later.w).2.2) =
        runPruneFuncs later.c later.appGw later.cbCtx
          (PruneIngress_assemble x first.cbCtx []) (later.cbCtx.IngressList, later.w)) ∧
    ((PruneIngress sampleDeps sampleController publicOnlyGateway (brownfieldCtx [1] "true")
        (runCalls sampleDeps
          [⟨sampleController, publicOnlyGateway, brownfieldCtx [1] "false", sampleWorld⟩]
          Globals.init)
        sampleWorld).2.2.heap 1).Spec.Rules =
      [⟨"a.example.com", [⟨"/", "svcA", 80⟩]⟩, ⟨"b.example.com", [⟨"/", "svcB", 80⟩]⟩] ∧
    ((PruneIngress sampleDeps sampleController publicOnlyGateway (brownfieldCtx [1] "true")
        Globals.init sampleWorld).2.2.heap 1).Spec.Rules =
      [⟨"b.example.com", [⟨"/", "svcB", 80⟩]⟩] := by
  refine ⟨?_, by decide, by decide⟩
  intro x first rest later
  have h1 : (PruneIngress x first.c first.appGw first.cbCtx Globals.init first.w).2.1.once
      = true := rfl
  have hlist :
      (PruneIngress x first.c first.appGw first.cbCtx Globals.init first.w).2.1.pruneFuncList
        = PruneIngress_assemble x first.cbCtx [] := rfl
  have hrun : runCalls x (first :: rest) Globals.init =
      (PruneIngress x first.c first.appGw first.cbCtx Globals.init first.w).2.1 := by
    simp only [runCalls]
    exact runCalls_of_once x rest _ h1
  have hone : runCalls x [first] Globals.init =
      (PruneIngress x first.c first.appGw first.cbCtx Globals.init first.w).2.1 := rfl
  obtain ⟨hg, hres⟩ := PruneIngress_globals_of_once x later.c later.appGw later.cbCtx
    (PruneIngress x first.c first.appGw first.cbCtx Globals.init first.w).2.1 later.w h1
  rw [hrun, hone]
  refine ⟨rfl, hlist, hg, ?_⟩
  rw [hres, hlist]

/-! ## Theorems: the identity generator -/

theorem generateIstioDestinationID_some (vs : VirtualService) (d : Destination) :
    generateIstioDestinationID (some vs) (some d) =
      some ⟨⟨vs.Namespace, d.Host⟩, ⟨vs.Namespace, vs.Name⟩, d.Host, d.Subset, d.Port.Number⟩ :=
  rfl

theorem generateIstioMatchID_some (vs : VirtualService) (r : Option HTTPRoute)
    (m : HTTPMatchRequest) (ds : List (Option Destination)) :
    generateIstioMatchID (some vs) r (some m) ds =
      some ⟨vs.Namespace, some vs, r, some m, ds, m.Gateways⟩ :=
  rfl

/-- C12: for every VirtualService `vs` and Destination `d`, `generateIstioDestinationID`
returns an identifier whose service identity is `vs.Namespace` / `d.Host`, whose
virtual-service identity is `vs.Namespace` / `vs.Name`, and whose destination host, subset and
port are `d.Host`, `d.Subset` and `d.Port.Number`, carried over unmodified. -/
theorem generateIstioDestinationID_fields (vs : VirtualService) (d : Destination) :
    ∃ id, generateIstioDestinationID (some vs) (some d) = some id ∧
      id.serviceIdentifier = ⟨vs.Namespace, d.Host⟩ ∧
      id.istioVirtualServiceIdentifier = ⟨vs.Namespace, vs.Name⟩ ∧
      id.DestinationHost = d.Host ∧
      id.DestinationSubset = d.Subset ∧
      id.DestinationPort = d.Port.Number :=
  ⟨_, generateIstioDestinationID_some vs d, rfl, rfl, rfl, rfl, rfl⟩

/-- C13: for every VirtualService `vs`, rule `r`, match `m` and destination list `ds`,
`generateIstioMatchID` returns the identifier with namespace `vs.Namespace`, the VirtualService
`vs`, the rule `r`, the match `m`, the destinations `ds` and the gateways `m.Gateways`; equal
inputs yield equal identifiers. -/
theorem generateIstioMatchID_fields :
    (∀ (vs : VirtualService) (r : Option HTTPRoute) (m : HTTPMatchRequest)
        (ds : List (Option Destination)),
      ∃ id, generateIstioMatchID (some vs) r (some m) ds = some id ∧
        id.Namespace = vs.Namespace ∧
        id.VirtualService = some vs ∧
        id.Rule = r ∧
        id.Match = some m ∧
        id.Destinations = ds ∧
        id.Gateways = m.Gateways) ∧
    (∀ (vs vs' : VirtualService) (r r' : Option HTTPRoute) (m m' : HTTPMatchRequest)
        (ds ds' : List (Option Destination)),
      vs = vs' → r = r' → m = m' → ds = ds' →
        generateIstioMatchID (some vs) r (some m) ds =
          generateIstioMatchID (some vs') r' (some m') ds') := by
  refine ⟨?_, ?_⟩
  · intro vs r m ds
    exact ⟨_, generateIstioMatchID_some vs r m ds, rfl, rfl, rfl, rfl, rfl, rfl⟩
  · intro vs vs' r r' m m' ds ds' hvs hr hm hds
    rw [hvs, hr, hm, hds]

theorem generateIstioMatchID_fields_witness :
    generateIstioMatchID (some sampleVirtualService) none (some sampleMatch)
        [some sampleIstioDestination] =
      generateIstioMatchID (some ⟨"ns1", "vs1", sampleVirtualService.Spec⟩) none
        (some ⟨"/", "GET", ["gw1"]⟩) [some ⟨"svcA", "v1", ⟨80, "http"⟩⟩] :=
  generateIstioMatchID_fields.2 sampleVirtualService ⟨"ns1", "vs1", sampleVirtualService.Spec⟩
    none none sampleMatch ⟨"/", "GET", ["gw1"]⟩ [some sampleIstioDestination]
    [some ⟨"svcA", "v1", ⟨80, "http"⟩⟩] rfl rfl rfl rfl

/-- C14, refuted as stated: with a nil `virtualService`, a nil `match` or a nil `destination`
the generators dereference a nil pointer and return no identifier. -/
theorem generateIstio_nil_panics :
    generateIstioMatchID none none (some sampleMatch) [some sampleIstioDestination] = none ∧
    generateIstioMatchID (some sampleVirtualService) none none [some sampleIstioDestination]
      = none ∧
    generateIstioDestinationID none (some sampleIstioDestination) = none ∧
    generateIstioDestinationID (some sampleVirtualService) none = none :=
  ⟨rfl, rfl, rfl, rfl⟩

/-- C14, amended: on non-nil `virtualService`, `match` and `destination` references the
generators are total: `generateIstioMatchID` returns an identifier for every VirtualService,
every rule reference (nil included), every match and every destination list (nil entries
included), and `generateIstioDestinationID` returns an identifier for every VirtualService and
every Destination. -/
theorem generateIstio_total_on_non_nil :
    (∀ (vs : VirtualService) (r : Option HTTPRoute) (m : HTTPMatchRequest)
        (ds : List (Option Destination)),
      (generateIstioMatchID (some vs) r (some m) ds).isSome = true) ∧
    (∀ (vs : VirtualService) (d : Destination),
      (generateIstioDestinationID (some vs) (some d)).isSome = true) :=
  ⟨fun _ _ _ _ => rfl, fun _ _ => rfl⟩

/-- C17: `generateIstioDestinationID` depends only on, and is injective in, the components
`vs.Namespace`, `vs.Name`, `d.Host`, `d.Subset` and `d.Port.Number`: two calls return equal
identifiers if and only if these five components agree. A re-fetched VirtualService that
differs in other fields (and a destination that differs in its port name only) yields an equal
key, and destinations differing in subset or port number yield distinct keys. -/
theorem generateIstioDestinationID_injective :
    (∀ (vs₁ vs₂ : VirtualService) (d₁ d₂ : Destination),
      generateIstioDestinationID (some vs₁) (some d₁) =
          generateIstioDestinationID (some vs₂) (some d₂) ↔
        (vs₁.Namespace = vs₂.Namespace ∧ vs₁.Name = vs₂.Name ∧ d₁.Host = d₂.Host ∧
          d₁.Subset = d₂.Subset ∧ d₁.Port.Number = d₂.Port.Number)) ∧
    generateIstioDestinationID (some sampleVirtualService) (some sampleIstioDestination) =
      generateIstioDestinationID (some sampleVirtualServiceRefetched)
        (some ⟨"svcA", "v1", ⟨80, "renamed"⟩⟩) ∧
    generateIstioDestinationID (some sampleVirtualService) (some ⟨"svcA", "v1", ⟨80, "http"⟩⟩) ≠
      generateIstioDestinationID (some sampleVirtualService)
        (some ⟨"svcA", "v2", ⟨80, "http"⟩⟩) ∧
    generateIstioDestinationID (some sampleVirtualService) (some ⟨"svcA", "v1", ⟨80, "http"⟩⟩) ≠
      generateIstioDestinationID (some sampleVirtualService)
        (some ⟨"svcA", "v1", ⟨8080, "http"⟩⟩) := by
  refine ⟨?_, by decide, by decide, by decide⟩
  intro vs₁ vs₂ d₁ d₂
  rw [generateIstioDestinationID_some, generateIstioDestinationID_some]
  constructor
  · intro h
    injection h with h
    injection h with h1 h2 h3 h4 h5
    injection h2 with h6 h7
    exact ⟨h6, h7, h3, h4, h5⟩
  · rintro ⟨h1, h2, h3, h4, h5⟩
    rw [h1, h2, h3, h4, h5]

/-! ## Theorems: the kube-system and brownfield stages -/

/-- C15: `pruneKubeSystemIngress` returns its input list unchanged, with the same elements in
the same order and of the same length, and leaves the surroundings unchanged; ingresses of
namespace `kube-system` stay in the list, as in the sample list `[1, 2]` whose second entry is
one. -/
theorem pruneKubeSystemIngress_noop :
    (∀ (c : AppGwIngressController) (appGw : ApplicationGateway)
        (cbCtx : ConfigBuilderContext) (ingressList : List Ptr) (w : World),
      pruneKubeSystemIngress c appGw cbCtx ingressList w = (ingressList, w) ∧
      (pruneKubeSystemIngress c appGw cbCtx ingressList w).1.length = ingressList.length) ∧
    (sampleWorld.heap 2).Namespace = "kube-system" ∧
    (2 : Ptr) ∈ (pruneKubeSystemIngress sampleController publicOnlyGateway
      (sampleCtx [1, 2] "false" "") [1, 2] sampleWorld).1 :=
  ⟨fun _ _ _ _ _ => ⟨rfl, rfl⟩, by decide, by decide⟩

theorem pruneProhibitedIngress_body_eq (x : Deps) (cbCtx : ConfigBuilderContext) (w : World)
    (q : Ptr) :
    (pruneProhibitedIngress_body x cbCtx w q).heap =
      Function.update w.heap q (withPrunedRules x cbCtx.ProhibitedTargets (w.heap q)) :=
  rfl

theorem pruneProhibitedIngress_foldl_spec (x : Deps) (cbCtx : ConfigBuilderContext)
    (l : List Ptr) :
    ∀ w : World,
      (l.foldl (pruneProhibitedIngress_body x cbCtx) w).events = w.events ∧
      (l.foldl (pruneProhibitedIngress_body x cbCtx) w).glog = w.glog ∧
      ∀ p, (l.foldl (pruneProhibitedIngress_body x cbCtx) w).heap p =
        (withPrunedRules x cbCtx.ProhibitedTargets)^[l.count p] (w.heap p) := by
  induction l with
  | nil => intro w; exact ⟨rfl, rfl, fun _ => rfl⟩
  | cons q qs ih =>
    intro w
    obtain ⟨h1, h2, h3⟩ := ih (pruneProhibitedIngress_body x cbCtx w q)
    rw [List.foldl_cons, h1, h2]
    refine ⟨rfl, rfl, ?_⟩
    intro p
    rw [h3 p, pruneProhibitedIngress_body_eq]
    by_cases hpq : p = q
    · subst hpq
      rw [List.count_cons_self, Function.iterate_succ_apply]
      simp only [Function.update_same]
    · rw [List.count_cons_of_ne hpq]
      simp only [Function.update_noteq hpq]

theorem withPrunedRules_iterate_meta (x : Deps) (targets : List ProhibitedTarget) (n : Nat) :
    ∀ obj : Ingress,
      ((withPrunedRules x targets)^[n] obj).Namespace = obj.Namespace ∧
      ((withPrunedRules x targets)^[n] obj).Name = obj.Name ∧
      ((withPrunedRules x targets)^[n] obj).Annotations = obj.Annotations := by
  induction n with
  | zero => intro obj; exact ⟨rfl, rfl, rfl⟩
  | succ n ih =>
    intro obj
    rw [Function.iterate_succ_apply]
    exact ih (withPrunedRules x targets obj)

theorem pruneProhibitedIngress_meta (x : Deps) (c : AppGwIngressController)
    (appGw : ApplicationGateway) (cbCtx : ConfigBuilderContext) (l : List Ptr) (w : World) :
    (pruneProhibitedIngress x c appGw cbCtx l w).1 = l ∧
    (pruneProhibitedIngress x c appGw cbCtx l w).2.events = w.events ∧
    (pruneProhibitedIngress x c appGw cbCtx l w).2.glog = w.glog ∧
    ∀ p, ((pruneProhibitedIngress x c appGw cbCtx l w).2.heap p).Namespace =
          (w.heap p).Namespace ∧
        ((pruneProhibitedIngress x c appGw cbCtx l w).2.heap p).Name = (w.heap p).Name ∧
        ((pruneProhibitedIngress x c appGw cbCtx l w).2.heap p).Annotations =
          (w.heap p).Annotations := by
  obtain ⟨h1, h2, h3⟩ := pruneProhibitedIngress_foldl_spec x cbCtx l w
  refine ⟨rfl, h1, h2, ?_⟩
  intro p
  have hp : (pruneProhibitedIngress x c appGw cbCtx l w).2.heap p =
      (withPrunedRules x cbCtx.ProhibitedTargets)^[l.count p] (w.heap p) := h3 p
  rw [hp]
  exact withPrunedRules_iterate_meta x cbCtx.ProhibitedTargets (l.count p) (w.heap p)

theorem withPrunedRules_iterate_rules (x : Deps) (targets : List ProhibitedTarget)
    (hidem : ∀ obj : Ingress,
      x.PruneIngressRules (withPrunedRules x targets obj) targets =
        x.PruneIngressRules obj targets)
    (n : Nat) (obj : Ingress) :
    (withPrunedRules x targets)^[n + 1] obj = withPrunedRules x targets obj := by
  induction n with
  | zero => rfl
  | succ n ih =>
    rw [Function.iterate_succ_apply', ih]
    simp only [withPrunedRules, hidem obj]
    have h := hidem obj
    simp only [withPrunedRules] at h
    rw [h]

/-- C16: `pruneProhibitedIngress` returns its input list, of the same length and order, and
writes nothing but rules: the rules of every listed ingress become
`brownfield.PruneIngressRules(original ingress, ProhibitedTargets)`, while namespace, name and
annotations of every ingress, every unlisted ingress and both logs are unchanged. The object
left at an address depends on the original object at that address only, not on the other
ingresses. The list holds each ingress once, or the rule pruner is a filter, which pruning
again does not change. -/
theorem pruneProhibitedIngress_rules (x : Deps) (c : AppGwIngressController)
    (appGw : ApplicationGateway) (cbCtx : ConfigBuilderContext) (ingressList : List Ptr)
    (w : World)
    (h : ingressList.Nodup ∨
      ∀ obj : Ingress,
        x.PruneIngressRules
            { obj with Spec := { obj.Spec with
                Rules := x.PruneIngressRules obj cbCtx.ProhibitedTargets } }
            cbCtx.ProhibitedTargets =
          x.PruneIngressRules obj cbCtx.ProhibitedTargets) :
    (pruneProhibitedIngress x c appGw cbCtx ingressList w).1 = ingressList ∧
    (∀ p ∈ ingressList,
      ((pruneProhibitedIngress x c appGw cbCtx ingressList w).2.heap p).Spec.Rules =
        x.PruneIngressRules (w.heap p) cbCtx.ProhibitedTargets) ∧
    (∀ p,
      ((pruneProhibitedIngress x c appGw cbCtx ingressList w).2.heap p).Namespace =
          (w.heap p).Namespace ∧
        ((pruneProhibitedIngress x c appGw cbCtx ingressList w).2.heap p).Name =
          (w.heap p).Name ∧
        ((pruneProhibitedIngress x c appGw cbCtx ingressList w).2.heap p).Annotations =
          (w.heap p).Annotations) ∧
    (∀ p, p ∉ ingressList →
      (pruneProhibitedIngress x c appGw cbCtx ingressList w).2.heap p = w.heap p) ∧
    (∀ (w₂ : World) (p : Ptr), w₂.heap p = w.heap p →
      (pruneProhibitedIngress x c appGw cbCtx ingressList w₂).2.heap p =
        (pruneProhibitedIngress x c appGw cbCtx ingressList w).2.heap p) ∧
    (pruneProhibitedIngress x c appGw cbCtx ingressList w).2.events = w.events ∧
    (pruneProhibitedIngress x c appGw cbCtx ingressList w).2.glog = w.glog := by
  obtain ⟨hl, hev, hglog, hmeta⟩ := pruneProhibitedIngress_meta x c appGw cbCtx ingressList w
  have hheap : ∀ (w' : World) (p : Ptr),
      (pruneProhibitedIngress x c appGw cbCtx ingressList w').2.heap p =
        (withPrunedRules x cbCtx.ProhibitedTargets)^[ingressList.count p] (w'.heap p) :=
    fun w' p => (pruneProhibitedIngress_foldl_spec x cbCtx ingressList w').2.2 p
  refine ⟨hl, ?_, hmeta, ?_, ?_, hev, hglog⟩
  · intro p hp
    rw [hheap w p]
    rcases h with hnd | hidem
    · rw [List.count_eq_one_of_mem hnd hp]
      rfl
    · obtain ⟨n, hn⟩ := Nat.exists_eq_succ_of_ne_zero
        (Nat.pos_iff_ne_zero.1 (List.count_pos_iff.2 hp))
      rw [hn, withPrunedRules_iterate_rules x cbCtx.ProhibitedTargets hidem n (w.heap p)]
      rfl
  · intro p hp
    rw [hheap w p, List.count_eq_zero_of_not_mem hp]
    rfl
  · intro w₂ p hw
    rw [hheap w₂ p, hheap w p, hw]

theorem pruneProhibitedIngress_rules_witness :
    ((pruneProhibitedIngress sampleDeps sampleController publicOnlyGateway
        (brownfieldCtx [0, 1] "true") [0, 1] sampleWorld).2.heap 1).Spec.Rules =
      sampleDeps.PruneIngressRules (sampleWorld.heap 1)
        (brownfieldCtx [0, 1] "true").ProhibitedTargets :=
  (pruneProhibitedIngress_rules sampleDeps sampleController publicOnlyGateway
    (brownfieldCtx [0, 1] "true") [0, 1] sampleWorld (Or.inl (by decide))).2.1 1 (by decide)

/-! ## Theorems: partition, assembled pipeline, idempotence -/

/-- C18: `pruneNoPrivateIP` partitions its input. The events recorded during the call are all
warnings, the length of the returned list plus their number is the length of the input list,
and an ingress is in the input list exactly when it is in the output or the subject of one of
these events, never both. -/
theorem pruneNoPrivateIP_partition (x : Deps) (c : AppGwIngressController)
    (appGw : ApplicationGateway) (cbCtx : ConfigBuilderContext) (ingressList : List Ptr)
    (w : World) :
    ∃ new : List Event,
      (pruneNoPrivateIP x c appGw cbCtx ingressList w).2.events = w.events ++ new ∧
      new.all (fun ev => decide (ev.eventtype = EventTypeWarning)) = true ∧
      (pruneNoPrivateIP x c appGw cbCtx ingressList w).1.length + new.length =
        ingressList.length ∧
      ∀ p : Ptr,
        (p ∈ ingressList ↔
          (p ∈ (pruneNoPrivateIP x c appGw cbCtx ingressList w).1 ∨
            ∃ ev ∈ new, ev.object = p)) ∧
        ¬ (p ∈ (pruneNoPrivateIP x c appGw cbCtx ingressList w).1 ∧
            ∃ ev ∈ new, ev.object = p) := by
  obtain ⟨_, hout, hev⟩ := pruneNoPrivateIP_spec x c appGw cbCtx ingressList w
  refine ⟨_, hev, ?_, ?_, ?_⟩
  · rw [List.all_eq_true]
    intro ev hmem
    obtain ⟨q, _, rfl⟩ := List.mem_map.1 hmem
    exact decide_eq_true rfl
  · rw [hout, List.length_map, Nat.add_comm]
    exact (List.length_eq_length_filter_add _).symm
  · intro p
    have hobj : (∃ ev ∈ (ingressList.filter (fun p =>
          requestsPrivateIP x cbCtx (w.heap p) && !hasPrivateFrontend appGw)).map
            (noPrivateIPEvent x c w.heap), ev.object = p) ↔
        (p ∈ ingressList ∧
          (requestsPrivateIP x cbCtx (w.heap p) && !hasPrivateFrontend appGw) = true) := by
      constructor
      · rintro ⟨ev, hmem, rfl⟩
        obtain ⟨q, hq, rfl⟩ := List.mem_map.1 hmem
        exact List.mem_filter.1 hq
      · intro hp
        exact ⟨_, List.mem_map.2 ⟨p, List.mem_filter.2 hp, rfl⟩, rfl⟩
    rw [hobj, hout, List.mem_filter]
    cases (requestsPrivateIP x cbCtx (w.heap p) && !hasPrivateFrontend appGw) <;> simp

theorem runPruneFuncs_assembled (x : Deps) (c : AppGwIngressController)
    (appGw : ApplicationGateway) (cbCtx ctx₀ : ConfigBuilderContext) (l : List Ptr)
    (w : World) :
    runPruneFuncs c appGw cbCtx (PruneIngress_assemble x ctx₀ []) (l, w) =
      (if ctx₀.EnvVariables.EnableBrownfieldDeployment = "true" then
        pruneNoPrivateIP x c appGw cbCtx (pruneProhibitedIngress x c appGw cbCtx l w).1
          (pruneProhibitedIngress x c appGw cbCtx l w).2
      else pruneNoPrivateIP x c appGw cbCtx l w) := by
  by_cases hb : ctx₀.EnvVariables.EnableBrownfieldDeployment = "true"
  · simp [PruneIngress_assemble, hb, runPruneFuncs, pruneKubeSystemIngress]
  · simp [PruneIngress_assemble, hb, runPruneFuncs, pruneKubeSystemIngress]

theorem Reachable_cases (x : Deps) (g : Globals) (hg : Reachable x g) :
    g = Globals.init ∨ ∃ ctx₀, g = ⟨true, PruneIngress_assemble x ctx₀ []⟩ := by
  induction hg with
  | start => exact Or.inl rfl
  | call c₀ appGw₀ cbCtx₀ g₀ w₀ _ ih =>
    right
    rcases ih with rfl | ⟨ctx₀, rfl⟩
    · exact ⟨cbCtx₀, rfl⟩
    · exact ⟨ctx₀, rfl⟩

/-- C19: when the pipeline was assembled by a first call with brownfield disabled, every later
`PruneIngress` call returns the list, and leaves the surroundings, of `pruneNoPrivateIP`
applied to `cbCtx.IngressList`; so a listed ingress of namespace `kube-system` that does not
require an unavailable private IP is in the output of `PruneIngress`, still in namespace
`kube-system`. -/
theorem PruneIngress_brownfield_disabled (x : Deps) (first : Call) (rest : List Call)
    (c : AppGwIngressController) (appGw : ApplicationGateway) (cbCtx : ConfigBuilderContext)
    (w : World)
    (hflag : first.cbCtx.EnvVariables.EnableBrownfieldDeployment ≠ "true") :
    ((PruneIngress x c appGw cbCtx (runCalls x (first :: rest) Globals.init) w).1,
        (PruneIngress x c appGw cbCtx (runCalls x (first :: rest) Globals.init) w).2.2) =
      pruneNoPrivateIP x c appGw cbCtx cbCtx.IngressList w ∧
    ∀ p ∈ cbCtx.IngressList, (w.heap p).Namespace = "kube-system" →
      ¬ (((x.UsePrivateIP (w.heap p)).1 = true ∨ cbCtx.EnvVariables.UsePrivateIP = "true") ∧
          appGw.FrontendIPConfigurations.any (fun ip => ip.IsPrivate) = false) →
      p ∈ (PruneIngress x c appGw cbCtx (runCalls x (first :: rest) Globals.init) w).1 ∧
        ((PruneIngress x c appGw cbCtx
          (runCalls x (first :: rest) Globals.init) w).2.2.heap p).Namespace
            = "kube-system" := by
  have h1 : (PruneIngress x first.c first.appGw first.cbCtx Globals.init first.w).2.1.once
      = true := rfl
  have hrun : runCalls x (first :: rest) Globals.init =
      ⟨true, PruneIngress_assemble x first.cbCtx []⟩ := by
    simp only [runCalls]
    exact runCalls_of_once x rest _ h1
  have hres := (PruneIngress_globals_of_once x c appGw cbCtx
    ⟨true, PruneIngress_assemble x first.cbCtx []⟩ w rfl).2
  rw [runPruneFuncs_assembled, if_neg hflag] at hres
  rw [hrun]
  refine ⟨hres, ?_⟩
  intro p hp hns hkeep
  have hfst := congrArg Prod.fst hres
  have hsnd := congrArg Prod.snd hres
  simp only at hfst hsnd
  obtain ⟨hheap, hout, _⟩ := pruneNoPrivateIP_spec x c appGw cbCtx cbCtx.IngressList w
  rw [hfst, hsnd, hheap, hout, List.mem_filter]
  refine ⟨⟨hp, ?_⟩, hns⟩
  cases hd : (requestsPrivateIP x cbCtx (w.heap p) && !hasPrivateFrontend appGw)
  · rfl
  · exfalso
    apply hkeep
    simpa [requestsPrivateIP, hasPrivateFrontend] using hd

theorem PruneIngress_brownfield_disabled_witness :
    (2 : Ptr) ∈ (PruneIngress sampleDeps sampleController publicOnlyGateway
        (brownfieldCtx [0, 1, 2] "true")
        (runCalls sampleDeps
          [⟨sampleController, publicOnlyGateway, brownfieldCtx [1] "false", sampleWorld⟩]
          Globals.init)
        sampleWorld).1 ∧
      ((PruneIngress sampleDeps sampleController publicOnlyGateway
        (brownfieldCtx [0, 1, 2] "true")
        (runCalls sampleDeps
          [⟨sampleController, publicOnlyGateway, brownfieldCtx [1] "false", sampleWorld⟩]
          Globals.init)
        sampleWorld).2.2.heap 2).Namespace = "kube-system" :=
  (PruneIngress_brownfield_disabled sampleDeps
    ⟨sampleController, publicOnlyGateway, brownfieldCtx [1] "false", sampleWorld⟩ []
    sampleController publicOnlyGateway (brownfieldCtx [0, 1, 2] "true") sampleWorld
    (by decide)).2 2 (by decide) (by decide) (by decide)

theorem pruneNoPrivateIP_second_pass (x : Deps) (c : AppGwIngressController)
    (appGw : ApplicationGateway) (cbCtx cbCtx' : ConfigBuilderContext) (l : List Ptr)
    (w w' : World)
    (hreq : ∀ p, requestsPrivateIP x cbCtx' (w'.heap p) =
      requestsPrivateIP x cbCtx (w.heap p)) :
    (pruneNoPrivateIP x c appGw cbCtx' (pruneNoPrivateIP x c appGw cbCtx l w).1 w').1 =
      (pruneNoPrivateIP x c appGw cbCtx l w).1 ∧
    (pruneNoPrivateIP x c appGw cbCtx' (pruneNoPrivateIP x c appGw cbCtx l w).1 w').2.events =
      w'.events ∧
    (pruneNoPrivateIP x c appGw cbCtx' (pruneNoPrivateIP x c appGw cbCtx l w).1 w').2.heap =
      w'.heap := by
  obtain ⟨_, hout, _⟩ := pruneNoPrivateIP_spec x c appGw cbCtx l w
  obtain ⟨hheap', hout', hev'⟩ := pruneNoPrivateIP_spec x c appGw cbCtx'
    (pruneNoPrivateIP x c appGw cbCtx l w).1 w'
  have hkeep : ∀ p ∈ (pruneNoPrivateIP x c appGw cbCtx l w).1,
      (requestsPrivateIP x cbCtx' (w'.heap p) && !hasPrivateFrontend appGw) = false := by
    intro p hp
    rw [hout, List.mem_filter] at hp
    rw [hreq p]
    cases hd : (requestsPrivateIP x cbCtx (w.heap p) && !hasPrivateFrontend appGw)
    · rfl
    · rw [hd] at hp
      exact absurd hp.2 (by decide)
  refine ⟨?_, ?_, hheap'⟩
  · rw [hout']
    apply List.filter_eq_self.2
    intro p hp
    rw [hkeep p hp]
    rfl
  · rw [hev']
    have hnil : (pruneNoPrivateIP x c appGw cbCtx l w).1.filter
        (fun p => requestsPrivateIP x cbCtx' (w'.heap p) && !hasPrivateFrontend appGw)
          = [] := by
      apply List.filter_eq_nil_iff.2
      intro p hp
      rw [hkeep p hp]
      decide
    rw [hnil]
    simp

theorem runPruneFuncs_assembled_idempotent (x : Deps) (c : AppGwIngressController)
    (appGw : ApplicationGateway) (cbCtx cbCtx' ctx₀ : ConfigBuilderContext) (l : List Ptr)
    (w : World)
    (henv : cbCtx'.EnvVariables = cbCtx.EnvVariables)
    (hread : ∀ a b : Ingress, a.Namespace = b.Namespace → a.Name = b.Name →
      a.Annotations = b.Annotations → x.UsePrivateIP a = x.UsePrivateIP b) :
    (runPruneFuncs c appGw cbCtx' (PruneIngress_assemble x ctx₀ [])
        ((runPruneFuncs c appGw cbCtx (PruneIngress_assemble x ctx₀ []) (l, w)).1,
          (runPruneFuncs c appGw cbCtx (PruneIngress_assemble x ctx₀ []) (l, w)).2)).1 =
      (runPruneFuncs c appGw cbCtx (PruneIngress_assemble x ctx₀ []) (l, w)).1 ∧
    (runPruneFuncs c appGw cbCtx' (PruneIngress_assemble x ctx₀ [])
        ((runPruneFuncs c appGw cbCtx (PruneIngress_assemble x ctx₀ []) (l, w)).1,
          (runPruneFuncs c appGw cbCtx (PruneIngress_assemble x ctx₀ []) (l, w)).2)).2.events =
      (runPruneFuncs c appGw cbCtx (PruneIngress_assemble x ctx₀ []) (l, w)).2.events := by
  have hflag : ∀ obj obj' : Ingress, x.UsePrivateIP obj' = x.UsePrivateIP obj →
      requestsPrivateIP x cbCtx' obj' = requestsPrivateIP x cbCtx obj := by
    intro obj obj' h
    unfold requestsPrivateIP
    rw [h, henv]
  by_cases hb : ctx₀.EnvVariables.EnableBrownfieldDeployment = "true"
  · have hR : runPruneFuncs c appGw cbCtx (PruneIngress_assemble x ctx₀ []) (l, w) =
        pruneNoPrivateIP x c appGw cbCtx (pruneProhibitedIngress x c appGw cbCtx l w).1
          (pruneProhibitedIngress x c appGw cbCtx l w).2 := by
      rw [runPruneFuncs_assembled, if_pos hb]
    rw [hR, runPruneFuncs_assembled, if_pos hb]
    obtain ⟨_, hev', _, hmeta'⟩ := pruneProhibitedIngress_meta x c appGw cbCtx'
      (pruneNoPrivateIP x c appGw cbCtx (pruneProhibitedIngress x c appGw cbCtx l w).1
        (pruneProhibitedIngress x c appGw cbCtx l w).2).1
      (pruneNoPrivateIP x c appGw cbCtx (pruneProhibitedIngress x c appGw cbCtx l w).1
        (pruneProhibitedIngress x c appGw cbCtx l w).2).2
    have hheap1 := (pruneNoPrivateIP_spec x c appGw cbCtx
      (pruneProhibitedIngress x c appGw cbCtx l w).1
      (pruneProhibitedIngress x c appGw cbCtx l w).2).1
    have hpass := pruneNoPrivateIP_second_pass x c appGw cbCtx cbCtx'
      (pruneProhibitedIngress x c appGw cbCtx l w).1
      (pruneProhibitedIngress x c appGw cbCtx l w).2
      (pruneProhibitedIngress x c appGw cbCtx'
        (pruneNoPrivateIP x c appGw cbCtx (pruneProhibitedIngress x c appGw cbCtx l w).1
          (pruneProhibitedIngress x c appGw cbCtx l w).2).1
        (pruneNoPrivateIP x c appGw cbCtx (pruneProhibitedIngress x c appGw cbCtx l w).1
          (pruneProhibitedIngress x c appGw cbCtx l w).2).2).2
      (by
        intro p
        obtain ⟨m1, m2, m3⟩ := hmeta' p
        rw [hheap1] at m1 m2 m3
        exact hflag _ _ (hread _ _ m1 m2 m3))
    exact ⟨hpass.1, hpass.2.1.trans hev'⟩
  · have hR : runPruneFuncs c appGw cbCtx (PruneIngress_assemble x ctx₀ []) (l, w) =
        pruneNoPrivateIP x c appGw cbCtx l w := by
      rw [runPruneFuncs_assembled, if_neg hb]
    rw [hR, runPruneFuncs_assembled, if_neg hb]
    have hheap1 := (pruneNoPrivateIP_spec x c appGw cbCtx l w).1
    have hpass := pruneNoPrivateIP_second_pass x c appGw cbCtx cbCtx' l w
      (pruneNoPrivateIP x c appGw cbCtx l w).2
      (by
        intro p
        rw [hheap1]
        exact hflag _ _ rfl)
    exact ⟨hpass.1, hpass.2.1⟩

/-- C11: pipeline idempotence. In every state of the package-level variables that the process
can reach, with gateway snapshot, flags, prohibited targets and annotation reader fixed,
running `PruneIngress` on the context whose `IngressList` is the output of a `PruneIngress`
run, in the surroundings that run left, returns a list equal to that input, records no further
event, and leaves the assembled pipeline as it was. The annotation reader reads an ingress's
namespace, name and annotations, not its rules. -/
theorem PruneIngress_idempotent (x : Deps) (c : AppGwIngressController)
    (appGw : ApplicationGateway) (cbCtx : ConfigBuilderContext) (g : Globals) (w : World)
    (hg : Reachable x g)
    (hread : ∀ a b : Ingress, a.Namespace = b.Namespace → a.Name = b.Name →
      a.Annotations = b.Annotations → x.UsePrivateIP a = x.UsePrivateIP b) :
    (PruneIngress x c appGw
        { cbCtx with IngressList := (PruneIngress x c appGw cbCtx g w).1 }
        (PruneIngress x c appGw cbCtx g w).2.1 (PruneIngress x c appGw cbCtx g w).2.2).1 =
      (PruneIngress x c appGw cbCtx g w).1 ∧
    (PruneIngress x c appGw
        { cbCtx with IngressList := (PruneIngress x c appGw cbCtx g w).1 }
        (PruneIngress x c appGw cbCtx g w).2.1
        (PruneIngress x c appGw cbCtx g w).2.2).2.2.events =
      (PruneIngress x c appGw cbCtx g w).2.2.events ∧
    (PruneIngress x c appGw
        { cbCtx with IngressList := (PruneIngress x c appGw cbCtx g w).1 }
        (PruneIngress x c appGw cbCtx g w).2.1 (PruneIngress x c appGw cbCtx g w).2.2).2.1 =
      (PruneIngress x c appGw cbCtx g w).2.1 := by
  have hfirst : ((PruneIngress x c appGw cbCtx g w).1, (PruneIngress x c appGw cbCtx g w).2.2) =
      runPruneFuncs c appGw cbCtx (PruneIngress x c appGw cbCtx g w).2.1.pruneFuncList
        (cbCtx.IngressList, w) := rfl
  have honce : (PruneIngress x c appGw cbCtx g w).2.1.once = true := by
    unfold PruneIngress
    by_cases ho : g.once = true <;> simp [ho]
  rcases Reachable_cases x _ (Reachable.call c appGw cbCtx g w hg) with hinit | ⟨ctx₀, hctx⟩
  · rw [hinit] at honce
    exact absurd honce (by decide)
  · obtain ⟨hglob, hsecond⟩ := PruneIngress_globals_of_once x c appGw
      { cbCtx with IngressList := (PruneIngress x c appGw cbCtx g w).1 }
      (PruneIngress x c appGw cbCtx g w).2.1 (PruneIngress x c appGw cbCtx g w).2.2 honce
    have hlist : (PruneIngress x c appGw cbCtx g w).2.1.pruneFuncList =
        PruneIngress_assemble x ctx₀ [] := by rw [hctx]
    have hidem := runPruneFuncs_assembled_idempotent x c appGw cbCtx
      { cbCtx with IngressList := (PruneIngress x c appGw cbCtx g w).1 } ctx₀
      cbCtx.IngressList w rfl hread
    rw [hlist] at hfirst hsecond
    rw [← hfirst] at hidem
    have hs1 := congrArg Prod.fst hsecond
    have hs2 := congrArg Prod.snd hsecond
    simp only at hs1 hs2
    refine ⟨?_, ?_, hglob⟩
    · rw [hs1]
      exact hidem.1
    · rw [hs2]
      exact hidem.2

theorem PruneIngress_idempotent_witness :
    (PruneIngress sampleDeps sampleController publicOnlyGateway
        { brownfieldCtx [0, 1, 2, 3] "true" with
          IngressList := (PruneIngress sampleDeps sampleController publicOnlyGateway
            (brownfieldCtx [0, 1, 2, 3] "true") Globals.init sampleWorld).1 }
        (PruneIngress sampleDeps sampleController publicOnlyGateway
          (brownfieldCtx [0, 1, 2, 3] "true") Globals.init sampleWorld).2.1
        (PruneIngress sampleDeps sampleController publicOnlyGateway
          (brownfieldCtx [0, 1, 2, 3] "true") Globals.init sampleWorld).2.2).1 =
      (PruneIngress sampleDeps sampleController publicOnlyGateway
        (brownfieldCtx [0, 1, 2, 3] "true") Globals.init sampleWorld).1 :=
  (PruneIngress_idempotent sampleDeps sampleController publicOnlyGateway
    (brownfieldCtx [0, 1, 2, 3] "true") Globals.init sampleWorld Reachable.start
    (by
      intro a b _ _ h
      show sampleUsePrivateIP a = sampleUsePrivateIP b
      unfold sampleUsePrivateIP
      rw [h])).1

end AGIC
